import Mathlib

/-!
# TC001 thermal camera reader: session, reassembly and AGC

A shallow embedding of `core/src/tc001.c` and proofs about it.

Conventions of the embedding

* Pointers are `Option Nat` (`none` is `NULL`), C `int` values are `Int`.
* `unsigned int` subtraction is taken modulo `2^32` and converted to `int`
  by two's complement (`toInt32`); `int` addition wraps the same way.
* What the transport library, the allocator and the thread library answer
  is passed in as extra arguments (the outcome of each call).
* The bytes of the frame buffer are a function from the offset relative to
  `frame_buf` to the byte stored there.
-/

namespace TC001

/-! ## Constants -/

def DEF_VENDOR_ID : Nat := 0x0BDA
def DEF_PRODUCT_ID : Nat := 0x5830
def INTERFACE_NUMBER : Nat := 1
def ISO_ENDPOINT : Nat := 0x81
def PACKET_SIZE : Nat := 3072
def NUM_PACKETS : Nat := 64
def TIMEOUT_MS : Nat := 1000

def FRAME_WIDTH : Int := 256
def FRAME_HEIGHT : Int := 192
def PIXEL_SIZE : Int := 2
def FRAME_SIZE : Int := FRAME_WIDTH * FRAME_HEIGHT * PIXEL_SIZE

/-- Largest value of a C `int` (32 bits). -/
def INT_MAX : Int := 2147483647

/-- Value of `LIBUSB_TRANSFER_COMPLETED` in the transport library's status enum. -/
def LIBUSB_TRANSFER_COMPLETED : Nat := 0

/-! ## Types of `tc001.h` -/

inductive tc001_status where
  | TC001_OK
  | TC001_ERR_PARAM
  | TC001_ERR_NO_DEV
  | TC001_ERR_USB
  | TC001_ERR_ALLOC
  | TC001_ERR_STATE
  | TC001_ERR_INTERNAL
  deriving DecidableEq, Repr

/-- Numeric value of a status code. -/
def tc001_status.code : tc001_status → Int
  | .TC001_OK => 0
  | .TC001_ERR_PARAM => -1
  | .TC001_ERR_NO_DEV => -2
  | .TC001_ERR_USB => -3
  | .TC001_ERR_ALLOC => -4
  | .TC001_ERR_STATE => -5
  | .TC001_ERR_INTERNAL => -6

inductive tc001_format where
  | TC001_FMT_U8
  | TC001_FMT_U16
  deriving DecidableEq, Repr

/-- The frame view handed to the user callback; `data` is a pointer. -/
structure tc001_frame where
  width : Int
  height : Int
  stride : Int
  timestamp_ns : Int
  format : tc001_format
  data : Option Nat
  deriving DecidableEq, Repr

/-- The session object `struct tc001_handle`. -/
structure tc001_handle where
  ctx : Option Nat
  dev : Option Nat
  xfer : Option Nat
  iso_buf : Option Nat
  frame_buf : Option Nat
  frame_pos : Int
  running : Int
  cb : Option Nat
  cb_user : Nat
  thread : Option Nat
  deriving DecidableEq, Repr

/-! ## Transport objects seen by the completion handler -/

/-- One isochronous packet of a transfer: its descriptor fields and the bytes
of its slot in the transfer buffer (`libusb_get_iso_packet_buffer_simple`). -/
structure IsoPacket where
  status : Nat
  actual_length : Nat
  data : List Nat

/-- A completed transfer as `iso_cb` sees it; `iso_packet_desc.length` is
`num_iso_packets`, `id` is the address of the transfer object. -/
structure libusb_transfer where
  id : Nat
  status : Nat
  iso_packet_desc : List IsoPacket

/-- One invocation of the user callback: the function called, the frame view,
the user context, and the bytes readable through `frame.data` during the call. -/
structure CallbackCall where
  cb : Nat
  frame : tc001_frame
  user : Nat
  view : Int → Nat

/-- A session together with what surrounds it: the frame-buffer bytes, the
callback invocations made so far (oldest first), the transfer objects that are
allocated, the transfers submitted to the device, and the worker threads that
were created and not joined. -/
structure World where
  h : tc001_handle
  frame_mem : Int → Nat
  calls : List CallbackCall
  live : List Nat
  inflight : List Nat
  threads : Nat

/-! ## Machine arithmetic -/

/-- Conversion of an integer to a 32-bit `int` (two's complement). -/
def toInt32 (x : Int) : Int :=
  if x % 4294967296 < 2147483648 then x % 4294967296 else x % 4294967296 - 4294967296

/-- A byte read through a `uint8_t*`. -/
def readByte (data : List Nat) (k : Nat) : Nat := data.getD k 0 % 256

/-! ## Frame reassembly: `fill_tc001_frame` and `iso_cb` -/

def fill_tc001_frame (h : tc001_handle) : tc001_frame :=
  { width := FRAME_WIDTH
    height := FRAME_HEIGHT
    stride := FRAME_WIDTH * PIXEL_SIZE
    timestamp_ns := 0
    format := tc001_format.TC001_FMT_U16
    data := h.frame_buf }

/-- Header-length byte `data[0]` of a packet. -/
def hdr_len (d : IsoPacket) : Nat := readByte d.data 0

/-- Flag byte `data[1]` of a packet. -/
def flags (d : IsoPacket) : Nat := readByte d.data 1

/-- The C value `int payload = d->actual_length - hdr_len`. -/
def payload (d : IsoPacket) : Int := toInt32 ((d.actual_length : Int) - (hdr_len d : Int))

/-- The test `flags & 2`. -/
def eof (d : IsoPacket) : Bool := (flags d) &&& 2 != 0

/-- The test at the head of the loop body: the packet is skipped. -/
def skipped (d : IsoPacket) : Bool :=
  d.status != LIBUSB_TRANSFER_COMPLETED || decide (d.actual_length < 2)

/-- The guard of the copy: `payload > 0 && h->frame_pos + payload <= FRAME_SIZE`. -/
def accepts (w : World) (d : IsoPacket) : Bool :=
  decide (0 < payload d) && decide (toInt32 (w.h.frame_pos + payload d) ≤ FRAME_SIZE)

/-- The call `memcpy(dst + pos, data + off, n)` on the frame-buffer bytes. -/
def memcpy (mem : Int → Nat) (pos : Int) (data : List Nat) (off : Nat) (n : Int) : Int → Nat :=
  fun k => if pos ≤ k ∧ k < pos + n then readByte data (off + (k - pos).toNat) else mem k

/-- Lines 161-164: copy the payload at the cursor and advance it, when it fits. -/
def append_payload (w : World) (d : IsoPacket) : World :=
  if accepts w d then
    { w with
      frame_mem := memcpy w.frame_mem w.h.frame_pos d.data (hdr_len d) (payload d)
      h := { w.h with frame_pos := toInt32 (w.h.frame_pos + payload d) } }
  else w

/-- Lines 167-170: deliver the frame when the buffer is full and a callback is set. -/
def deliver (w : World) : World :=
  match w.h.cb with
  | some f =>
    if FRAME_SIZE ≤ w.h.frame_pos then
      { w with calls := w.calls ++ [⟨f, fill_tc001_frame w.h, w.h.cb_user, w.frame_mem⟩] }
    else w
  | none => w

/-- Lines 166-172: the end-of-frame branch. -/
def end_of_frame (w : World) (d : IsoPacket) : World :=
  if eof d then
    let w1 := deliver w
    { w1 with h := { w1.h with frame_pos := 0 } }
  else w

/-- The body of the packet loop of `iso_cb` for one packet. -/
def iso_packet (w : World) (d : IsoPacket) : World :=
  if skipped d then w else end_of_frame (append_payload w d) d

/-- The packet loop of `iso_cb`. -/
def iso_packets (w : World) (ds : List IsoPacket) : World := ds.foldl iso_packet w

/-- Lines 176-180: resubmit the transfer while the session is running;
`submit` is the result of `libusb_submit_transfer`. -/
def resubmit (w : World) (t : libusb_transfer) (submit : Int) : World :=
  if w.h.running ≠ 0 then
    if submit < 0 then { w with h := { w.h with running := 1 } }
    else { w with inflight := t.id :: w.inflight }
  else w

/-- The completion handler. The transfer that completed is no longer in
flight when the handler runs. -/
def iso_cb (w : World) (t : libusb_transfer) (submit : Int) : World :=
  let w0 : World := { w with inflight := w.inflight.erase t.id }
  let w1 := if t.status = LIBUSB_TRANSFER_COMPLETED then iso_packets w0 t.iso_packet_desc else w0
  resubmit w1 t submit

/-- The handler run for a sequence of completed transfers, each with the
result of its resubmission. -/
def iso_cb_run (w : World) (ts : List (libusb_transfer × Int)) : World :=
  ts.foldl (fun a p => iso_cb a p.1 p.2) w

/-- The packets of a sequence of transfers, in the order the handler visits them. -/
def packets_of (ts : List (libusb_transfer × Int)) : List IsoPacket :=
  (ts.map (fun p => p.1.iso_packet_desc)).flatten

/-- The number of payload bytes of a packet: captured length minus header length. -/
def payload_length (d : IsoPacket) : Nat := d.actual_length - hdr_len d

/-- The event-pump loop `usb_loop` keeps running exactly while this holds. -/
def usb_loop_continues (w : World) : Bool := w.h.running != 0

/-! ## `tc001_open` -/

/-- What `tc001_open` acquires. -/
inductive Resource where
  | handle_mem
  | usb_ctx
  | dev_handle
  | iface
  | iso_buf
  | frame_buf
  deriving DecidableEq, Repr

/-- The steps of the control handshake, in the order of the source. -/
inductive Handshake where
  | set_configuration
  | vendor_setup
  | probe
  | commit
  | alt_setting
  deriving DecidableEq, Repr

/-- What `tc001_open` does that is visible outside: a resource is acquired
(the acquiring call succeeded), a resource is released, a handshake step is
issued to the device. -/
inductive OpenEvent where
  | acquire (r : Resource)
  | release (r : Resource)
  | issue (s : Handshake)
  deriving DecidableEq, Repr

/-- The answers of the calls `tc001_open` makes. -/
structure OpenOutcomes where
  calloc : Bool
  libusb_init : Int
  ctx : Nat
  libusb_open_device_with_vid_pid : Nat → Nat → Option Nat
  libusb_claim_interface : Int
  send_standard_set_configuration : Int
  send_vendor_setup : Int
  send_probe : Int
  send_commit : Int
  libusb_set_interface_alt_setting : Int
  malloc_iso : Option Nat
  malloc_frame : Option Nat

/-- The result of `tc001_open`: the status, the value of `*out` after the call
(`none` is `NULL`), the events in order, and the message passed to `seterr`. -/
structure OpenResult where
  status : tc001_status
  out : Option tc001_handle
  trace : List OpenEvent
  err : Option String
  deriving DecidableEq, Repr

/-- The handle as `calloc` returns it: every field zero. -/
def zeroed_handle : tc001_handle :=
  { ctx := none, dev := none, xfer := none, iso_buf := none, frame_buf := none
    frame_pos := 0, running := 0, cb := none, cb_user := 0, thread := none }

/-- The code after the label `FAIL_USB`. -/
def FAIL_USB (h : tc001_handle) (tr : List OpenEvent) (msg : String) : OpenResult :=
  let tr1 := if h.iso_buf.isSome then tr ++ [OpenEvent.release Resource.iso_buf] else tr
  let tr2 := if h.frame_buf.isSome then tr1 ++ [OpenEvent.release Resource.frame_buf] else tr1
  { status := tc001_status.TC001_ERR_USB
    out := none
    trace := tr2 ++ [OpenEvent.release Resource.iface, OpenEvent.release Resource.dev_handle,
      OpenEvent.release Resource.usb_ctx, OpenEvent.release Resource.handle_mem]
    err := some msg }

/-- Lines 258-268 of `tc001_open`: the two buffers. -/
def open_buffers (o : OpenOutcomes) (h : tc001_handle) (tr : List OpenEvent) : OpenResult :=
  let h1 := { h with iso_buf := o.malloc_iso, frame_buf := o.malloc_frame }
  let tr1 := if o.malloc_iso.isSome then tr ++ [OpenEvent.acquire Resource.iso_buf] else tr
  let tr2 := if o.malloc_frame.isSome then tr1 ++ [OpenEvent.acquire Resource.frame_buf] else tr1
  if h1.iso_buf.isNone || h1.frame_buf.isNone then FAIL_USB h1 tr2 "alloc buffers"
  else
    { status := tc001_status.TC001_OK
      out := some { h1 with frame_pos := 0 }
      trace := tr2
      err := none }

/-- Lines 234-256 of `tc001_open`: the control sequence and the alternate setting. -/
def open_handshake (o : OpenOutcomes) (h : tc001_handle) (tr : List OpenEvent) : OpenResult :=
  let tr1 := tr ++ [OpenEvent.issue Handshake.set_configuration]
  if o.send_standard_set_configuration < 0 then FAIL_USB h tr1 "SET_CONFIGURATION failed" else
  let tr2 := tr1 ++ [OpenEvent.issue Handshake.vendor_setup]
  if o.send_vendor_setup < 0 then FAIL_USB h tr2 "vendor setup failed" else
  let tr3 := tr2 ++ [OpenEvent.issue Handshake.probe]
  if o.send_probe < 0 then FAIL_USB h tr3 "probe failed" else
  let tr4 := tr3 ++ [OpenEvent.issue Handshake.commit]
  if o.send_commit < 0 then FAIL_USB h tr4 "commit failed" else
  let tr5 := tr4 ++ [OpenEvent.issue Handshake.alt_setting]
  if o.libusb_set_interface_alt_setting < 0 then FAIL_USB h tr5 "set alt setting failed" else
  open_buffers o h tr5

/-- The function `tc001_open`; `out_nonnull` says whether `out` is a non-null pointer. -/
def tc001_open (out_nonnull : Bool) (vid pid : Nat) (o : OpenOutcomes) : OpenResult :=
  if !out_nonnull then
    { status := tc001_status.TC001_ERR_PARAM, out := none, trace := [], err := none }
  else if !o.calloc then
    { status := tc001_status.TC001_ERR_ALLOC, out := none, trace := [], err := some "alloc" }
  else
    let tr0 := [OpenEvent.acquire Resource.handle_mem]
    if o.libusb_init < 0 then
      { status := tc001_status.TC001_ERR_USB, out := none
        trace := tr0 ++ [OpenEvent.release Resource.handle_mem], err := some "libusb_init" }
    else
      let h1 := { zeroed_handle with ctx := some o.ctx }
      let tr1 := tr0 ++ [OpenEvent.acquire Resource.usb_ctx]
      let ids : Nat × Nat :=
        if vid = 0 ∧ pid = 0 then (DEF_VENDOR_ID, DEF_PRODUCT_ID) else (vid, pid)
      match o.libusb_open_device_with_vid_pid ids.1 ids.2 with
      | none =>
        { status := tc001_status.TC001_ERR_NO_DEV, out := none
          trace := tr1 ++ [OpenEvent.release Resource.usb_ctx, OpenEvent.release Resource.handle_mem]
          err := some "device not found" }
      | some dv =>
        let h2 := { h1 with dev := some dv }
        let tr2 := tr1 ++ [OpenEvent.acquire Resource.dev_handle]
        if o.libusb_claim_interface < 0 then
          { status := tc001_status.TC001_ERR_USB, out := none
            trace := tr2 ++ [OpenEvent.release Resource.dev_handle,
              OpenEvent.release Resource.usb_ctx, OpenEvent.release Resource.handle_mem]
            err := some "claim interface failed" }
        else open_handshake o h2 (tr2 ++ [OpenEvent.acquire Resource.iface])

/-- The session and its surroundings right after a successful `tc001_open`;
`mem` is the content of the freshly allocated frame buffer. -/
def World.ofHandle (h : tc001_handle) (mem : Int → Nat) : World :=
  { h := h, frame_mem := mem, calls := [], live := [], inflight := [], threads := 0 }

/-! ## `tc001_start` and `tc001_stop` -/

/-- The result of `tc001_start`: status, the session afterwards (`none` when
the handle was `NULL`), and the message passed to `seterr`. -/
structure StartResult where
  status : tc001_status
  world : Option World
  err : Option String

/-- The function `tc001_start`. `alloc` is what `libusb_alloc_transfer`
returns, `submit` what `libusb_submit_transfer` returns, `thread_create`
what `pthread_create` returns and `tid` the thread it stores on success. -/
def tc001_start (hw : Option World) (cb : Option Nat) (user : Nat)
    (alloc : Option Nat) (submit : Int) (thread_create : Int) (tid : Nat) : StartResult :=
  match hw, cb with
  | none, _ => { status := tc001_status.TC001_ERR_PARAM, world := none, err := none }
  | some w, none => { status := tc001_status.TC001_ERR_PARAM, world := some w, err := none }
  | some w, some f =>
    if w.h.running ≠ 0 then
      { status := tc001_status.TC001_ERR_STATE, world := some w, err := none }
    else
      let h1 := { w.h with cb := some f, cb_user := user }
      match alloc with
      | none =>
        { status := tc001_status.TC001_ERR_ALLOC
          world := some { w with h := { h1 with xfer := none } }
          err := some "alloc transfer" }
      | some x =>
        let h2 := { h1 with xfer := some x }
        let live2 := x :: w.live
        if submit < 0 then
          { status := tc001_status.TC001_ERR_USB
            world := some { w with h := { h2 with xfer := none }, live := live2.erase x }
            err := some "submit transfer" }
        else
          let inflight3 := x :: w.inflight
          let h3 := { h2 with running := 1 }
          if thread_create ≠ 0 then
            { status := tc001_status.TC001_ERR_INTERNAL
              world := some { w with h := { h3 with running := 0 }, live := live2
                                     inflight := inflight3 }
              err := some "pthread_create failed" }
          else
            { status := tc001_status.TC001_OK
              world := some { w with h := { h3 with thread := some tid }, live := live2
                                     inflight := inflight3, threads := w.threads + 1 }
              err := none }

/-- The function `tc001_stop`. `drain` lists the completions that the ten
rounds of event handling deliver to `iso_cb` while the cancel is flushed. -/
def tc001_stop (hw : Option World) (drain : List libusb_transfer) : Option World :=
  match hw with
  | none => none
  | some w =>
    if w.h.running = 0 then some w
    else
      let w1 : World := { w with h := { w.h with running := 0 } }
      let w2 : World :=
        match w1.h.xfer with
        | some x =>
          let wd := drain.foldl (fun a t => iso_cb a t 0) w1
          { wd with h := { wd.h with xfer := none }
                    live := wd.live.erase x, inflight := wd.inflight.erase x }
        | none => w1
      some { w2 with threads := w2.threads - 1 }

/-! ## `tc001_u16_to_u8` -/

/-- An element read through a `const uint16_t*`. -/
def readU16 (inp : List Nat) (i : Nat) : Nat := inp.getD i 0 % 65536

/-- The first loop of `tc001_u16_to_u8`: `(lo, hi)` after `n` elements. -/
def scan_lo_hi (inp : List Nat) (n : Nat) : Nat × Nat :=
  (List.range n).foldl
    (fun (p : Nat × Nat) i =>
      let lo := if readU16 inp i < p.1 then readU16 inp i else p.1
      let hi := if readU16 inp i > p.2 then readU16 inp i else p.2
      (lo, hi))
    (65535, 0)

/-- Conversion of a `float` to `int`: the fraction is discarded. -/
def truncToInt (x : ℚ) : Int := if 0 ≤ x then ⌊x⌋ else ⌈x⌉

/-- The clamp `if (u<0) u=0; if (u>255) u=255;` followed by the cast to `uint8_t`. -/
def clamp_u8 (u : Int) : Nat :=
  let u1 := if u < 0 then 0 else u
  let u2 := if u1 > 255 then 255 else u1
  (u2 % 256).toNat

/-- The value of `span` after line 370; `rnd` rounds a real number to `float`. -/
def agc_span (rnd : ℚ → ℚ) (lo hi : Nat) : ℚ :=
  let span := rnd (((hi : Int) - (lo : Int) : Int) : ℚ)
  if span < 1 then 1 else span

/-- The body of the second loop for the element `x`. -/
def agc_pixel (rnd : ℚ → ℚ) (lo : Nat) (span : ℚ) (x : Nat) : Nat :=
  let v := rnd (rnd (((x : Int) - (lo : Int) : Int) : ℚ) / span)
  let u := truncToInt (rnd (rnd (v * 255) + 1 / 2))
  clamp_u8 u

/-- The function `tc001_u16_to_u8` for non-null `in` and `out`: the list of the
`count` bytes it stores in `out` (nothing when `count <= 0`). Every `float`
operation is the exact operation followed by the rounding `rnd`. -/
def tc001_u16_to_u8 (rnd : ℚ → ℚ) (inp : List Nat) (count : Int) : List Nat :=
  if count ≤ 0 then []
  else
    let n := count.toNat
    let p := scan_lo_hi inp n
    let span := agc_span rnd p.1 p.2
    (List.range n).map (fun i => agc_pixel rnd p.1 span (readU16 inp i))

/-! ## Fusion payload: sizes of the packed structures of `tc001.h` -/

/-- `sizeof(tc001_mat3)`: nine `float`. -/
def SIZEOF_MAT3 : Nat := 9 * 4

/-- `sizeof(tc001_mat4)`: sixteen `float`. -/
def SIZEOF_MAT4 : Nat := 16 * 4

/-- `sizeof(tc001_frame_info)` under `#pragma pack(push, 1)`. -/
def SIZEOF_FRAME_INFO : Nat := 8 + 4 + 2 + 2 + 2 + 1 + 3

/-- `sizeof(tc001_frame_stats)`: five `uint16_t`, one `uint32_t`, 256 bins. -/
def SIZEOF_FRAME_STATS : Nat := 5 * 2 + 4 + 256 * 4

/-- `sizeof(tc001_thumbnail8)`: the header in front of the thumbnail pixels. -/
def SIZEOF_THUMBNAIL8 : Nat := 2 + 2 + 2

/-- `sizeof(tc001_temp_model)`. -/
def SIZEOF_TEMP_MODEL : Nat := 1 + 4 + 4 + 4 + 4 + 4

/-- `sizeof(tc001_calibration)`. -/
def SIZEOF_CALIBRATION : Nat := 8 + SIZEOF_MAT3 + SIZEOF_MAT3 + SIZEOF_MAT4 + 9 * 4

/-- `sizeof(tc001_payload_hdr)`: the four parts and the three `uint32_t` fields. -/
def SIZEOF_PAYLOAD_HDR : Nat :=
  SIZEOF_FRAME_INFO + SIZEOF_FRAME_STATS + SIZEOF_TEMP_MODEL + SIZEOF_CALIBRATION + 3 * 4

/-- The bytes of `x` in little-endian order, `n` of them. -/
def le_bytes : Nat → Nat → List Nat
  | 0, _ => []
  | n + 1, x => x % 256 :: le_bytes n (x / 256)

/-- Modelled from the spec: the body of `tc001_max_payload_bytes` (declared in
`tc001.h`) is missing from the sources. Section 4.6: fixed header size plus
`w*h*2` for the raw frame plus thumbnail header size plus `thumbW*thumbH`. -/
def tc001_max_payload_bytes (w h thumb_w thumb_h : Nat) : Nat :=
  SIZEOF_PAYLOAD_HDR + w * h * 2 + SIZEOF_THUMBNAIL8 + thumb_w * thumb_h

/-- Modelled from the spec: what `tc001_pack_payload` reads from the session.
The frame that was captured last with its dimensions, and the values of the
bytes the packer computes (frame info, statistics, temperature model and
calibration; the raw frame; the thumbnail pixels), whose computation section
4.6 leaves to the implementer. -/
structure PackSource where
  width : Nat
  height : Nat
  fixed : Nat → Nat
  raw : Nat → Nat
  thumb : Nat → Nat

/-- Modelled from the spec: the block `tc001_pack_payload` builds (its body is
missing from the sources). Section 4.6 and section 6: the fixed header with the
offset of the raw frame, the offset of the thumbnail and the total size in its
last three fields, then the raw 16-bit frame, then the thumbnail (its header
with width, height and a pitch equal to the width, and `thumbW*thumbH` pixels). -/
def pack_block (src : PackSource) (thumb_w thumb_h : Nat) : List Nat :=
  let off_raw := SIZEOF_PAYLOAD_HDR
  let off_thumb := off_raw + src.width * src.height * 2
  let total := off_thumb + SIZEOF_THUMBNAIL8 + thumb_w * thumb_h
  (List.range (SIZEOF_PAYLOAD_HDR - 3 * 4)).map src.fixed
    ++ le_bytes 4 off_raw ++ le_bytes 4 off_thumb ++ le_bytes 4 total
    ++ (List.range (src.width * src.height * 2)).map src.raw
    ++ le_bytes 2 thumb_w ++ le_bytes 2 thumb_h ++ le_bytes 2 thumb_w
    ++ (List.range (thumb_w * thumb_h)).map src.thumb

/-- The result of `tc001_pack_payload`: the returned byte count and the
destination bytes afterwards (`none` when `dst` is `NULL`). -/
structure PackResult where
  written : Nat
  dst : Option (List Nat)
  deriving DecidableEq, Repr

/-- Modelled from the spec: `tc001_pack_payload` (declared in `tc001.h`, body
missing from the sources). Section 4.6: it returns 0 and writes nothing when
`dst` is null, when `dstCapacity` is smaller than `maxPayloadBytes` for the
requested dimensions, or when no frame has been captured yet (`src` is `none`);
otherwise it stores the block at the start of `dst` and returns its size. -/
def tc001_pack_payload (src : Option PackSource) (dst : Option (List Nat)) (dst_cap : Nat)
    (thumb_w thumb_h : Nat) : PackResult :=
  match src, dst with
  | _, none => { written := 0, dst := none }
  | none, some buf => { written := 0, dst := some buf }
  | some f, some buf =>
    if dst_cap < tc001_max_payload_bytes f.width f.height thumb_w thumb_h then
      { written := 0, dst := some buf }
    else
      let block := pack_block f thumb_w thumb_h
      { written := block.length, dst := some (block ++ buf.drop block.length) }

/-! ## Notions used in the statements -/

/-- Two worlds agree on what the packet loop reads and writes: cursor, callback,
user context, frame-buffer pointer and bytes, and the callback invocations. -/
def FrameEq (w v : World) : Prop :=
  w.h.frame_pos = v.h.frame_pos ∧ w.h.cb = v.h.cb ∧ w.h.cb_user = v.h.cb_user ∧
  w.h.frame_buf = v.h.frame_buf ∧ w.frame_mem = v.frame_mem ∧ w.calls = v.calls

/-- A packet that is taken into account by the hypotheses of the reassembly
statements: completed, at least two bytes captured, header inside the capture. -/
def well_formed (d : IsoPacket) : Prop :=
  d.status = LIBUSB_TRANSFER_COMPLETED ∧ 2 ≤ d.actual_length ∧ hdr_len d ≤ d.actual_length

/-! ### The expected content of the frame buffer, from the fields of the packets

These definitions use only the descriptor fields and the slot bytes of a
packet, not the functions that make up the handler. -/

/-- The header length of a packet: byte 0 of its slot. -/
def header_length (d : IsoPacket) : Nat := readByte d.data 0

/-- The packet is one the handler has to process: sub-status completed and at
least two bytes captured. -/
def processed (d : IsoPacket) : Bool :=
  d.status == LIBUSB_TRANSFER_COMPLETED && decide (2 ≤ d.actual_length)

/-- The end-of-frame bit of a packet: bit 1 of byte 1 of its slot. -/
def end_of_frame_bit (d : IsoPacket) : Bool := decide (readByte d.data 1 / 2 % 2 = 1)

/-- The payload bytes of a packet: the slot bytes at `[header length, captured length)`. -/
def payload_bytes (d : IsoPacket) : List Nat :=
  (List.range (d.actual_length - header_length d)).map
    (fun j => readByte d.data (header_length d + j))

/-- A packet is accepted at a cursor: sub-status completed, at least two bytes
captured, payload length positive, cursor plus payload length at most 98304. -/
def accepted_at (cursor : Nat) (d : IsoPacket) : Bool :=
  processed d && decide (0 < d.actual_length - header_length d) &&
    decide (cursor + (d.actual_length - header_length d) ≤ 98304)

/-- The accumulated payload bytes once the payload of `d` is taken in, if accepted. -/
def pending_append (acc : List Nat) (d : IsoPacket) : List Nat :=
  if accepted_at acc.length d then acc ++ payload_bytes d else acc

/-- The accumulated payload bytes after the packet `d`: a processed packet
with the end-of-frame bit empties them, another processed packet adds its
payload if accepted, any other packet leaves them. -/
def pending_step (acc : List Nat) (d : IsoPacket) : List Nat :=
  if processed d then (if end_of_frame_bit d then [] else pending_append acc d) else acc

/-- The concatenation of the payloads accepted since the last processed
end-of-frame packet, along a sequence of packets that starts at cursor 0. -/
def pending (ds : List IsoPacket) : List Nat := ds.foldl pending_step []

/-- The frame buffer of `w` holds the bytes `acc` at `[0, cursor)`. -/
def holds (w : World) (acc : List Nat) : Prop :=
  w.h.frame_pos = (acc.length : Int) ∧ (acc.length : Int) ≤ FRAME_SIZE ∧
  ∀ k : Nat, k < acc.length → w.frame_mem (k : Int) = acc.getD k 0

/-- How often the resource `r` is acquired in a trace. -/
def acquired (tr : List OpenEvent) (r : Resource) : Nat := tr.count (OpenEvent.acquire r)

/-- How often the resource `r` is released in a trace. -/
def released (tr : List OpenEvent) (r : Resource) : Nat := tr.count (OpenEvent.release r)

/-- Every resource is acquired at most once and released as often as acquired. -/
def all_released (tr : List OpenEvent) : Prop :=
  ∀ r : Resource, acquired tr r ≤ 1 ∧ released tr r = acquired tr r

/-- Every resource is acquired once and none is released. -/
def all_held (tr : List OpenEvent) : Prop :=
  ∀ r : Resource, acquired tr r = 1 ∧ released tr r = 0

/-- The state of the trace when the handshake starts: the handle memory, the
transport context, the device handle and the interface are held, no buffer has
been acquired, nothing has been released. -/
def before_buffers (tr : List OpenEvent) : Prop :=
  (∀ r : Resource, r ≠ Resource.iso_buf → r ≠ Resource.frame_buf →
    acquired tr r = 1 ∧ released tr r = 0) ∧
  acquired tr Resource.iso_buf = 0 ∧ acquired tr Resource.frame_buf = 0 ∧
  released tr Resource.iso_buf = 0 ∧ released tr Resource.frame_buf = 0

/-- The postcondition of `tc001_open` on a result. -/
def no_half_init (r : OpenResult) : Prop :=
  (r.status ≠ tc001_status.TC001_OK → r.out = none ∧ all_released r.trace) ∧
  (r.status = tc001_status.TC001_OK →
    ∃ h, r.out = some h ∧ h.iso_buf.isSome = true ∧ h.frame_buf.isSome = true ∧
      h.frame_pos = 0 ∧ all_held r.trace)

/-- The handle, the allocated transfers and the submitted transfers of a session. -/
def session_summary (hw : Option World) : Option (tc001_handle × List Nat × List Nat) :=
  hw.map (fun v => (v.h, v.live, v.inflight))

/-! ### A concrete rounding: binary32, round to nearest, ties to even -/

/-- The integer nearest to `y`, ties to the even one. -/
def roundEven (y : ℚ) : Int :=
  if y - ⌊y⌋ < 1 / 2 then ⌊y⌋
  else if 1 / 2 < y - ⌊y⌋ then ⌊y⌋ + 1
  else if ⌊y⌋ % 2 = 0 then ⌊y⌋ else ⌊y⌋ + 1

/-- The spacing of binary32 numbers around a positive `x`: 24 significant
bits, least exponent -126 (below it the numbers are subnormal). -/
def f32_quantum (x : ℚ) : ℚ := 2 ^ (max (Int.log 2 x) (-126) - 23)

/-- Rounding of a positive number to binary32. -/
def roundF32_pos (x : ℚ) : ℚ := roundEven (x / f32_quantum x) * f32_quantum x

/-- Rounding of a rational number to binary32 (round to nearest, ties to
even), on the finite range: overflow to infinity is not represented. -/
def roundF32 (x : ℚ) : ℚ :=
  if 0 < x then roundF32_pos x
  else if x < 0 then -roundF32_pos (-x)
  else 0

/-! ## Sample sessions, packets and outcomes -/

/-- A session right after open with callback 7 registered and frame buffer at 4096. -/
def demo_world : World :=
  World.ofHandle { zeroed_handle with cb := some 7, cb_user := 9, frame_buf := some 4096
                                      iso_buf := some 8192, ctx := some 1, dev := some 2 }
    (fun _ => 0)

/-- First half of a frame: header of 2 bytes, 49152 payload bytes, no end-of-frame bit. -/
def demo_first : IsoPacket := { status := 0, actual_length := 49154, data := [2, 0] }

/-- Second half of a frame, with the end-of-frame bit. -/
def demo_last : IsoPacket := { status := 0, actual_length := 49154, data := [2, 2] }

/-- Two completed transfers, one packet each, both resubmitted with success. -/
def demo_transfers : List (libusb_transfer × Int) :=
  [({ id := 5, status := 0, iso_packet_desc := [demo_first] }, 0),
   ({ id := 5, status := 0, iso_packet_desc := [demo_last] }, 0)]

/-- A session with 10 bytes of a frame accumulated. -/
def demo_ten_bytes : World := { demo_world with h := { demo_world.h with frame_pos := 10 } }

/-- An end-of-frame packet with 4 payload bytes. -/
def demo_short_eof : IsoPacket := { status := 0, actual_length := 6, data := [2, 2, 1, 2, 3, 4] }

/-- A session whose frame buffer lacks 2 bytes to be full. -/
def demo_nearly_full : World := { demo_world with h := { demo_world.h with frame_pos := 98302 } }

/-- A packet with 4 payload bytes. -/
def demo_four : IsoPacket := { status := 0, actual_length := 6, data := [2, 0, 1, 2, 3, 4] }

/-- A streaming session: running flag set, transfer 5 allocated and in flight. -/
def demo_streaming : World :=
  { demo_world with h := { demo_world.h with running := 1, xfer := some 5, thread := some 3 }
                    live := [5], inflight := [5], threads := 1 }

/-- A completed transfer carrying one short end-of-frame packet. -/
def demo_transfer : libusb_transfer := { id := 5, status := 0, iso_packet_desc := [demo_short_eof] }

/-- Every step of `tc001_open` succeeds. -/
def demo_outcomes : OpenOutcomes :=
  { calloc := true, libusb_init := 0, ctx := 1
    libusb_open_device_with_vid_pid := fun vid pid =>
      if vid = DEF_VENDOR_ID ∧ pid = DEF_PRODUCT_ID then some 2 else none
    libusb_claim_interface := 0, send_standard_set_configuration := 36, send_vendor_setup := 8
    send_probe := 25, send_commit := 25, libusb_set_interface_alt_setting := 0
    malloc_iso := some 8192, malloc_frame := some 4096 }

/-- Every step succeeds up to the buffers; the receive buffer cannot be allocated. -/
def demo_outcomes_no_iso_buf : OpenOutcomes := { demo_outcomes with malloc_iso := none }

/-- The session returned by a successful `tc001_open`, frame buffer zeroed. -/
def demo_opened : Option World :=
  (tc001_open true 0 0 demo_outcomes).out.map (fun h => World.ofHandle h (fun _ => 0))

/-- A start on the opened session whose transfer 5 is allocated and submitted
and whose thread creation fails with code 11. -/
def demo_start_no_thread : StartResult := tc001_start demo_opened (some 7) 9 (some 5) 0 11 3

/-- A buffer of four raw values. -/
def demo_raw : List Nat := [100, 40, 300, 40]

/-- A buffer of three equal raw values. -/
def demo_uniform : List Nat := [700, 700, 700]

/-- A captured frame of 2 x 2 pixels with all computed bytes zero. -/
def demo_pack_source : PackSource :=
  { width := 2, height := 2, fixed := fun _ => 0, raw := fun k => k, thumb := fun _ => 0 }

/-! ## Lemmas on the reassembly loop -/

theorem toInt32_of_range (x : Int) (h0 : 0 ≤ x) (h1 : x < 2147483648) : toInt32 x = x := by
  unfold toInt32
  split <;> omega

theorem FRAME_SIZE_eq : FRAME_SIZE = 98304 := by decide

theorem FrameEq.rfl_ (w : World) : FrameEq w w := ⟨rfl, rfl, rfl, rfl, rfl, rfl⟩

theorem append_payload_congr {w v : World} (e : FrameEq w v) (d : IsoPacket) :
    FrameEq (append_payload w d) (append_payload v d) := by
  obtain ⟨e1, e2, e3, e4, e5, e6⟩ := e
  unfold append_payload accepts
  rw [e1]
  split
  · exact ⟨by simp, e2, e3, e4, by simp [e1, e5], e6⟩
  · exact ⟨e1, e2, e3, e4, e5, e6⟩

theorem deliver_congr {w v : World} (e : FrameEq w v) : FrameEq (deliver w) (deliver v) := by
  obtain ⟨e1, e2, e3, e4, e5, e6⟩ := e
  unfold deliver
  cases hv : v.h.cb with
  | none =>
    rw [hv] at e2
    simp only [e2]
    exact ⟨e1, by rw [e2, hv], e3, e4, e5, e6⟩
  | some f =>
    rw [hv] at e2
    simp only [e2, e1]
    split
    · refine ⟨e1, by rw [e2, hv], e3, e4, e5, ?_⟩
      simp [fill_tc001_frame, e3, e4, e5, e6]
    · exact ⟨e1, by rw [e2, hv], e3, e4, e5, e6⟩

theorem end_of_frame_congr {w v : World} (e : FrameEq w v) (d : IsoPacket) :
    FrameEq (end_of_frame w d) (end_of_frame v d) := by
  unfold end_of_frame
  split
  · obtain ⟨_, a2, a3, a4, a5, a6⟩ := deliver_congr e
    exact ⟨rfl, a2, a3, a4, a5, a6⟩
  · exact e

theorem iso_packet_congr {w v : World} (e : FrameEq w v) (d : IsoPacket) :
    FrameEq (iso_packet w d) (iso_packet v d) := by
  unfold iso_packet
  split
  · exact e
  · exact end_of_frame_congr (append_payload_congr e d) d

theorem iso_packets_congr (ds : List IsoPacket) {w v : World} (e : FrameEq w v) :
    FrameEq (iso_packets w ds) (iso_packets v ds) := by
  induction ds generalizing w v with
  | nil => exact e
  | cons d ds ih => exact ih (iso_packet_congr e d)

theorem iso_packets_append (w : World) (xs ys : List IsoPacket) :
    iso_packets w (xs ++ ys) = iso_packets (iso_packets w xs) ys := by
  simp [iso_packets, List.foldl_append]

theorem resubmit_frameEq (w : World) (t : libusb_transfer) (s : Int) :
    FrameEq (resubmit w t s) w := by
  unfold resubmit
  split
  · split <;> exact ⟨rfl, rfl, rfl, rfl, rfl, rfl⟩
  · exact ⟨rfl, rfl, rfl, rfl, rfl, rfl⟩

theorem FrameEq.trans_ {a b c : World} (e : FrameEq a b) (f : FrameEq b c) : FrameEq a c :=
  ⟨e.1.trans f.1, e.2.1.trans f.2.1, e.2.2.1.trans f.2.2.1, e.2.2.2.1.trans f.2.2.2.1,
    e.2.2.2.2.1.trans f.2.2.2.2.1, e.2.2.2.2.2.trans f.2.2.2.2.2⟩

theorem iso_cb_frameEq (w : World) (t : libusb_transfer) (s : Int)
    (ht : t.status = LIBUSB_TRANSFER_COMPLETED) :
    FrameEq (iso_cb w t s) (iso_packets w t.iso_packet_desc) := by
  unfold iso_cb
  simp only [ht, if_true]
  refine FrameEq.trans_ (resubmit_frameEq _ t s) ?_
  exact iso_packets_congr _ ⟨rfl, rfl, rfl, rfl, rfl, rfl⟩

theorem iso_cb_run_frameEq (ts : List (libusb_transfer × Int)) (w : World)
    (hts : ∀ p ∈ ts, p.1.status = LIBUSB_TRANSFER_COMPLETED) :
    FrameEq (iso_cb_run w ts) (iso_packets w (packets_of ts)) := by
  induction ts generalizing w with
  | nil => exact FrameEq.rfl_ w
  | cons p ts ih =>
    have h1 := iso_cb_frameEq w p.1 p.2 (hts p (List.mem_cons_self _ _))
    have h2 := ih (iso_cb w p.1 p.2) (fun q hq => hts q (List.mem_cons_of_mem _ hq))
    have h3 : packets_of (p :: ts) = p.1.iso_packet_desc ++ packets_of ts := by
      simp [packets_of]
    rw [h3, iso_packets_append]
    exact FrameEq.trans_ h2 (iso_packets_congr _ h1)

theorem payload_eq_length (d : IsoPacket) (hh : hdr_len d ≤ d.actual_length)
    (hs : (payload_length d : Int) < 2147483648) : payload d = (payload_length d : Int) := by
  unfold payload
  have e : ((d.actual_length : Int) - (hdr_len d : Int)) = (payload_length d : Int) := by
    unfold payload_length
    omega
  rw [e]
  exact toInt32_of_range _ (by omega) hs

theorem append_payload_fit (w : World) (d : IsoPacket) (hh : hdr_len d ≤ d.actual_length)
    (h0 : 0 ≤ w.h.frame_pos) (hfit : w.h.frame_pos + (payload_length d : Int) ≤ FRAME_SIZE) :
    (append_payload w d).h.frame_pos = w.h.frame_pos + (payload_length d : Int) ∧
    (append_payload w d).h.cb = w.h.cb ∧ (append_payload w d).h.cb_user = w.h.cb_user ∧
    (append_payload w d).h.frame_buf = w.h.frame_buf ∧ (append_payload w d).calls = w.calls := by
  rw [FRAME_SIZE_eq] at hfit
  have hp := payload_eq_length d hh (by omega)
  unfold append_payload accepts
  rw [hp]
  by_cases hz : 0 < (payload_length d : Int)
  · have ht := toInt32_of_range (w.h.frame_pos + (payload_length d : Int)) (by omega) (by omega)
    rw [ht, FRAME_SIZE_eq]
    simp [hz, hfit]
  · have : (payload_length d : Int) = 0 := by omega
    simp [this]

theorem not_skipped (d : IsoPacket) (hs : d.status = LIBUSB_TRANSFER_COMPLETED)
    (hl : 2 ≤ d.actual_length) : skipped d = false := by
  unfold skipped
  simp [hs]
  omega

theorem iso_packet_no_eof (w : World) (d : IsoPacket)
    (hs : d.status = LIBUSB_TRANSFER_COMPLETED) (hl : 2 ≤ d.actual_length)
    (hh : hdr_len d ≤ d.actual_length) (he : eof d = false)
    (h0 : 0 ≤ w.h.frame_pos) (hfit : w.h.frame_pos + (payload_length d : Int) ≤ FRAME_SIZE) :
    (iso_packet w d).h.frame_pos = w.h.frame_pos + (payload_length d : Int) ∧
    (iso_packet w d).h.cb = w.h.cb ∧ (iso_packet w d).h.cb_user = w.h.cb_user ∧
    (iso_packet w d).h.frame_buf = w.h.frame_buf ∧ (iso_packet w d).calls = w.calls := by
  unfold iso_packet end_of_frame
  rw [not_skipped d hs hl, he]
  simpa using append_payload_fit w d hh h0 hfit

theorem iso_packets_accumulate (ds : List IsoPacket) (w : World)
    (hg : ∀ d ∈ ds, well_formed d ∧ eof d = false) (h0 : 0 ≤ w.h.frame_pos)
    (hfit : w.h.frame_pos + (((ds.map payload_length).sum : Nat) : Int) ≤ FRAME_SIZE) :
    (iso_packets w ds).h.frame_pos = w.h.frame_pos + (((ds.map payload_length).sum : Nat) : Int) ∧
    (iso_packets w ds).h.cb = w.h.cb ∧ (iso_packets w ds).h.cb_user = w.h.cb_user ∧
    (iso_packets w ds).h.frame_buf = w.h.frame_buf ∧ (iso_packets w ds).calls = w.calls := by
  induction ds generalizing w with
  | nil => simp [iso_packets]
  | cons d ds ih =>
    obtain ⟨⟨hs, hl, hh⟩, he⟩ := hg d (List.mem_cons_self _ _)
    simp only [List.map_cons, List.sum_cons, Nat.cast_add] at hfit ⊢
    have step := iso_packet_no_eof w d hs hl hh he h0 (by omega)
    obtain ⟨s1, s2, s3, s4, s5⟩ := step
    have := ih (iso_packet w d) (fun x hx => hg x (List.mem_cons_of_mem _ hx))
      (by rw [s1]; omega) (by rw [s1]; omega)
    obtain ⟨t1, t2, t3, t4, t5⟩ := this
    have e : iso_packets w (d :: ds) = iso_packets (iso_packet w d) ds := rfl
    rw [e]
    exact ⟨by rw [t1, s1]; omega, t2.trans s2, t3.trans s3, t4.trans s4, t5.trans s5⟩

theorem iso_packet_eof_full (w : World) (d : IsoPacket) (f : Nat)
    (hg : well_formed d) (he : eof d = true) (hcb : w.h.cb = some f)
    (h0 : 0 ≤ w.h.frame_pos) (hfit : w.h.frame_pos + (payload_length d : Int) = FRAME_SIZE) :
    (iso_packet w d).calls = w.calls ++
      [⟨f, ⟨256, 192, 512, 0, tc001_format.TC001_FMT_U16, w.h.frame_buf⟩, w.h.cb_user,
        (iso_packet w d).frame_mem⟩] ∧
    (iso_packet w d).h.frame_pos = 0 := by
  obtain ⟨hs, hl, hh⟩ := hg
  obtain ⟨a1, a2, a3, a4, a5⟩ := append_payload_fit w d hh h0 (by omega)
  unfold iso_packet end_of_frame
  rw [not_skipped d hs hl, he]
  simp only [Bool.false_eq_true, if_false, if_true]
  unfold deliver
  rw [a2, hcb]
  simp only [a1, hfit, le_refl, if_true, a5, a3, fill_tc001_frame, a4]
  simp [FRAME_WIDTH, PIXEL_SIZE, FRAME_HEIGHT]

/-- C1. Frame reassembly: a run of the completion handler over completed
transfers whose packets are all completed, at least two bytes long, with the
header inside the capture, starting from cursor 0 with a callback registered,
where only the last packet carries the end-of-frame bit and the payload lengths
sum to exactly 98304, invokes the callback exactly once, with a 256 x 192 frame
of stride 512 in format U16 whose data pointer is the session's frame buffer
(seen with the bytes the buffer holds at that moment), and leaves the cursor at 0. -/
theorem iso_cb_delivers_exact_frame (w : World) (ts : List (libusb_transfer × Int))
    (pre : List IsoPacket) (last : IsoPacket) (f : Nat)
    (hpos : w.h.frame_pos = 0) (hcb : w.h.cb = some f)
    (hts : ∀ p ∈ ts, p.1.status = LIBUSB_TRANSFER_COMPLETED)
    (hpk : packets_of ts = pre ++ [last])
    (hwf : ∀ d ∈ pre ++ [last], well_formed d)
    (hpre : ∀ d ∈ pre, eof d = false) (hlast : eof last = true)
    (hsum : ((pre ++ [last]).map payload_length).sum = 98304) :
    (iso_cb_run w ts).calls = w.calls ++
      [⟨f, ⟨256, 192, 512, 0, tc001_format.TC001_FMT_U16, w.h.frame_buf⟩, w.h.cb_user,
        (iso_cb_run w ts).frame_mem⟩] ∧
    (iso_cb_run w ts).h.frame_pos = 0 := by
  obtain ⟨r1, _, _, _, r5, r6⟩ := iso_cb_run_frameEq ts w hts
  rw [hpk, iso_packets_append] at r1 r5 r6
  simp only [List.map_append, List.sum_append, List.map_cons, List.map_nil, List.sum_cons,
    List.sum_nil, Nat.add_zero] at hsum
  have hacc := iso_packets_accumulate pre w
    (fun d hd => ⟨hwf d (List.mem_append_left _ hd), hpre d hd⟩) (by omega)
    (by rw [hpos, FRAME_SIZE_eq]; omega)
  obtain ⟨s1, s2, s3, s4, s5⟩ := hacc
  have hl := iso_packet_eof_full (iso_packets w pre) last f
    (hwf last (List.mem_append_right _ (List.mem_singleton_self _))) hlast (s2.trans hcb)
    (by rw [s1, hpos]; omega) (by rw [s1, hpos, FRAME_SIZE_eq]; omega)
  have e : iso_packets (iso_packets w pre) [last] = iso_packet (iso_packets w pre) last := rfl
  rw [e] at r1 r5 r6
  rw [r6, r5, r1, hl.1, s5, s4, s3]
  exact ⟨rfl, hl.2⟩

/-- The reassembly statement on two completed transfers of one packet each, 49152 payload
bytes per packet, the second with the end-of-frame bit. -/
theorem iso_cb_delivers_exact_frame_witness :
    (iso_cb_run demo_world demo_transfers).calls = demo_world.calls ++
      [⟨7, ⟨256, 192, 512, 0, tc001_format.TC001_FMT_U16, demo_world.h.frame_buf⟩,
        demo_world.h.cb_user, (iso_cb_run demo_world demo_transfers).frame_mem⟩] ∧
    (iso_cb_run demo_world demo_transfers).h.frame_pos = 0 :=
  iso_cb_delivers_exact_frame demo_world demo_transfers [demo_first] demo_last 7 rfl rfl
    (by decide) rfl
    (by simp [well_formed, demo_first, demo_last, hdr_len, readByte, LIBUSB_TRANSFER_COMPLETED])
    (by decide) (by decide) (by decide)

/-- C2. Incomplete frame at end-of-frame: from a cursor below 98304, a
completed packet of at least two captured bytes with the end-of-frame bit set,
after whose payload step the cursor is still below 98304, causes no callback
invocation and resets the cursor to 0. -/
theorem iso_cb_incomplete_frame_dropped (w : World) (d : IsoPacket)
    (_hc : w.h.frame_pos < FRAME_SIZE)
    (hs : d.status = LIBUSB_TRANSFER_COMPLETED) (hl : 2 ≤ d.actual_length)
    (he : eof d = true)
    (hlt : (append_payload w d).h.frame_pos < FRAME_SIZE) :
    (iso_packet w d).calls = w.calls ∧ (iso_packet w d).h.frame_pos = 0 := by
  have hc : (append_payload w d).calls = w.calls := by
    unfold append_payload
    split <;> rfl
  unfold iso_packet end_of_frame
  rw [not_skipped d hs hl, he]
  simp only [Bool.false_eq_true, if_false, if_true]
  refine ⟨?_, trivial⟩
  unfold deliver
  cases (append_payload w d).h.cb with
  | none => exact hc
  | some f =>
    simp only [not_le.mpr hlt, if_false]
    exact hc

/-- The dropped-frame statement on a session holding 10 bytes and an end-of-frame packet of 4
payload bytes. -/
theorem iso_cb_incomplete_frame_dropped_witness :
    (iso_packet demo_ten_bytes demo_short_eof).calls = demo_ten_bytes.calls ∧
    (iso_packet demo_ten_bytes demo_short_eof).h.frame_pos = 0 :=
  iso_cb_incomplete_frame_dropped demo_ten_bytes demo_short_eof (by decide) rfl (by decide)
    (by decide) (by decide)

theorem hdr_len_lt (d : IsoPacket) : hdr_len d < 256 := by
  unfold hdr_len readByte
  exact Nat.mod_lt _ (by norm_num)

theorem payload_exact (d : IsoPacket) (hb : (d.actual_length : Int) < 2147483648) :
    payload d = (d.actual_length : Int) - (hdr_len d : Int) := by
  have := hdr_len_lt d
  unfold payload toInt32
  split <;> omega

theorem accepts_in_bounds (w : World) (d : IsoPacket)
    (h0 : 0 ≤ w.h.frame_pos) (h1 : w.h.frame_pos ≤ FRAME_SIZE)
    (hb : (d.actual_length : Int) + FRAME_SIZE ≤ INT_MAX) (ha : accepts w d = true) :
    0 < payload d ∧ w.h.frame_pos + payload d ≤ FRAME_SIZE ∧
    toInt32 (w.h.frame_pos + payload d) = w.h.frame_pos + payload d := by
  rw [FRAME_SIZE_eq] at h1 hb
  unfold INT_MAX at hb
  have hp := payload_exact d (by omega)
  have := hdr_len_lt d
  unfold accepts at ha
  simp only [Bool.and_eq_true, decide_eq_true_eq] at ha
  obtain ⟨a1, a2⟩ := ha
  have ht := toInt32_of_range (w.h.frame_pos + payload d) (by omega) (by omega)
  rw [ht] at a2
  exact ⟨a1, a2, ht⟩

theorem append_payload_inv (w : World) (d : IsoPacket)
    (h0 : 0 ≤ w.h.frame_pos) (h1 : w.h.frame_pos ≤ FRAME_SIZE)
    (hb : (d.actual_length : Int) + FRAME_SIZE ≤ INT_MAX) :
    0 ≤ (append_payload w d).h.frame_pos ∧ (append_payload w d).h.frame_pos ≤ FRAME_SIZE := by
  unfold append_payload
  split
  · rename_i ha
    obtain ⟨a1, a2, a3⟩ := accepts_in_bounds w d h0 h1 hb ha
    simp only [a3]
    omega
  · exact ⟨h0, h1⟩

theorem end_of_frame_inv (w : World) (d : IsoPacket)
    (h0 : 0 ≤ w.h.frame_pos) (h1 : w.h.frame_pos ≤ FRAME_SIZE) :
    0 ≤ (end_of_frame w d).h.frame_pos ∧ (end_of_frame w d).h.frame_pos ≤ FRAME_SIZE := by
  unfold end_of_frame
  split
  · simp [FRAME_SIZE_eq]
  · exact ⟨h0, h1⟩

theorem iso_packet_inv (w : World) (d : IsoPacket)
    (h0 : 0 ≤ w.h.frame_pos) (h1 : w.h.frame_pos ≤ FRAME_SIZE)
    (hb : (d.actual_length : Int) + FRAME_SIZE ≤ INT_MAX) :
    0 ≤ (iso_packet w d).h.frame_pos ∧ (iso_packet w d).h.frame_pos ≤ FRAME_SIZE := by
  unfold iso_packet
  split
  · exact ⟨h0, h1⟩
  · obtain ⟨a0, a1⟩ := append_payload_inv w d h0 h1 hb
    exact end_of_frame_inv _ d a0 a1

theorem iso_packets_inv (ds : List IsoPacket) (w : World)
    (h0 : 0 ≤ w.h.frame_pos) (h1 : w.h.frame_pos ≤ FRAME_SIZE)
    (hb : ∀ d ∈ ds, (d.actual_length : Int) + FRAME_SIZE ≤ INT_MAX) :
    0 ≤ (iso_packets w ds).h.frame_pos ∧ (iso_packets w ds).h.frame_pos ≤ FRAME_SIZE := by
  induction ds generalizing w with
  | nil => exact ⟨h0, h1⟩
  | cons d ds ih =>
    obtain ⟨a0, a1⟩ := iso_packet_inv w d h0 h1 (hb d (List.mem_cons_self _ _))
    exact ih (iso_packet w d) a0 a1 (fun x hx => hb x (List.mem_cons_of_mem _ hx))

theorem end_of_frame_mem (w : World) (d : IsoPacket) :
    (end_of_frame w d).frame_mem = w.frame_mem := by
  unfold end_of_frame deliver
  split
  · cases w.h.cb with
    | none => rfl
    | some f =>
      simp only
      split <;> rfl
  · rfl

/-- C3. Write-cursor bound: from a cursor in [0, 98304], along any sequence of
packets (any sub-status, header byte and flag byte; captured lengths for which
the handler's `int` arithmetic stays in range), the cursor is in [0, 98304]
after each packet; a payload with cursor + payload length above 98304 is not
copied and does not move the cursor; every copy writes only offsets in
[0, 98304), and bytes outside that range are never changed. -/
theorem iso_cb_cursor_bound (w : World) (ds : List IsoPacket)
    (h0 : 0 ≤ w.h.frame_pos) (h1 : w.h.frame_pos ≤ FRAME_SIZE)
    (hb : ∀ d ∈ ds, (d.actual_length : Int) + FRAME_SIZE ≤ INT_MAX)
    (pre post : List IsoPacket) (d : IsoPacket) (hsplit : ds = pre ++ d :: post) :
    (0 ≤ (iso_packet (iso_packets w pre) d).h.frame_pos ∧
      (iso_packet (iso_packets w pre) d).h.frame_pos ≤ FRAME_SIZE) ∧
    (FRAME_SIZE < (iso_packets w pre).h.frame_pos + ((d.actual_length : Int) - (hdr_len d : Int)) →
      append_payload (iso_packets w pre) d = iso_packets w pre ∧
      (iso_packet (iso_packets w pre) d).frame_mem = (iso_packets w pre).frame_mem) ∧
    (accepts (iso_packets w pre) d = true →
      ∀ k : Int, (iso_packets w pre).h.frame_pos ≤ k →
        k < (iso_packets w pre).h.frame_pos + payload d → 0 ≤ k ∧ k < FRAME_SIZE) ∧
    (∀ k : Int, k < 0 ∨ FRAME_SIZE ≤ k →
      (iso_packet (iso_packets w pre) d).frame_mem k = (iso_packets w pre).frame_mem k) := by
  subst hsplit
  have hd := hb d (by simp)
  obtain ⟨p0, p1⟩ := iso_packets_inv pre w h0 h1 (fun x hx => hb x (by simp [hx]))
  generalize iso_packets w pre = v at p0 p1
  have hacc : accepts v d = true →
      ∀ k : Int, v.h.frame_pos ≤ k → k < v.h.frame_pos + payload d → 0 ≤ k ∧ k < FRAME_SIZE := by
    intro ha k k0 k1
    obtain ⟨a1, a2, _⟩ := accepts_in_bounds v d p0 p1 hd ha
    omega
  have hrej : FRAME_SIZE < v.h.frame_pos + ((d.actual_length : Int) - (hdr_len d : Int)) →
      append_payload v d = v := by
    intro hx
    have hp : payload d = (d.actual_length : Int) - (hdr_len d : Int) := by
      apply payload_exact
      rw [FRAME_SIZE_eq] at hd
      unfold INT_MAX at hd
      omega
    unfold append_payload
    split
    · rename_i ha
      obtain ⟨_, a2, _⟩ := accepts_in_bounds v d p0 p1 hd ha
      omega
    · rfl
  refine ⟨iso_packet_inv v d p0 p1 hd, ?_, hacc, ?_⟩
  · intro hx
    refine ⟨hrej hx, ?_⟩
    unfold iso_packet
    split
    · rfl
    · rw [end_of_frame_mem, hrej hx]
  · intro k hk
    unfold iso_packet
    split
    · rfl
    · rw [end_of_frame_mem]
      unfold append_payload
      split
      · rename_i ha
        have hr := hacc ha k
        simp only [memcpy]
        split
        · rename_i hin
          have := hr hin.1 hin.2
          omega
        · rfl
      · rfl

/-- The cursor bound on a session 2 bytes short of a full frame: a packet that does not fit,
then one of 4 payload bytes, then an end-of-frame packet. -/
theorem iso_cb_cursor_bound_witness :
    (0 ≤ (iso_packet (iso_packets demo_nearly_full [demo_first]) demo_four).h.frame_pos ∧
      (iso_packet (iso_packets demo_nearly_full [demo_first]) demo_four).h.frame_pos
        ≤ FRAME_SIZE) ∧
    (FRAME_SIZE < (iso_packets demo_nearly_full [demo_first]).h.frame_pos +
        ((demo_four.actual_length : Int) - (hdr_len demo_four : Int)) →
      append_payload (iso_packets demo_nearly_full [demo_first]) demo_four =
        iso_packets demo_nearly_full [demo_first] ∧
      (iso_packet (iso_packets demo_nearly_full [demo_first]) demo_four).frame_mem =
        (iso_packets demo_nearly_full [demo_first]).frame_mem) ∧
    (accepts (iso_packets demo_nearly_full [demo_first]) demo_four = true →
      ∀ k : Int, (iso_packets demo_nearly_full [demo_first]).h.frame_pos ≤ k →
        k < (iso_packets demo_nearly_full [demo_first]).h.frame_pos + payload demo_four →
        0 ≤ k ∧ k < FRAME_SIZE) ∧
    (∀ k : Int, k < 0 ∨ FRAME_SIZE ≤ k →
      (iso_packet (iso_packets demo_nearly_full [demo_first]) demo_four).frame_mem k =
        (iso_packets demo_nearly_full [demo_first]).frame_mem k) :=
  iso_cb_cursor_bound demo_nearly_full [demo_first, demo_four, demo_short_eof]
    (by decide) (by decide) (by decide) [demo_first] [demo_short_eof] demo_four rfl

theorem append_payload_running (w : World) (d : IsoPacket) :
    (append_payload w d).h.running = w.h.running := by
  unfold append_payload
  split <;> rfl

theorem deliver_running (w : World) : (deliver w).h.running = w.h.running := by
  unfold deliver
  cases w.h.cb with
  | none => rfl
  | some f =>
    simp only
    split <;> rfl

theorem end_of_frame_running (w : World) (d : IsoPacket) :
    (end_of_frame w d).h.running = w.h.running := by
  unfold end_of_frame
  split
  · exact deliver_running w
  · rfl

theorem iso_packet_running (w : World) (d : IsoPacket) :
    (iso_packet w d).h.running = w.h.running := by
  unfold iso_packet
  split
  · rfl
  · exact (end_of_frame_running _ d).trans (append_payload_running w d)

theorem iso_packets_running (ds : List IsoPacket) (w : World) :
    (iso_packets w ds).h.running = w.h.running := by
  induction ds generalizing w with
  | nil => rfl
  | cons d ds ih => exact (ih (iso_packet w d)).trans (iso_packet_running w d)

theorem resubmit_failure_running (v : World) (t : libusb_transfer) (submit : Int)
    (hr : v.h.running ≠ 0) (hf : submit < 0) : (resubmit v t submit).h.running = 1 := by
  unfold resubmit
  rw [if_pos hr, if_pos hf]

/-- C4 (what the code does). When the running flag is set as the handler
finishes the packets of a transfer and the resubmission fails, the handler
stores 1 in the running flag: the flag is still set afterwards and the
event-pump loop continues. -/
theorem iso_cb_resubmit_failure_leaves_running (w : World) (t : libusb_transfer) (submit : Int)
    (hr : w.h.running ≠ 0) (hf : submit < 0) :
    (iso_cb w t submit).h.running = 1 ∧ usb_loop_continues (iso_cb w t submit) = true := by
  have h1 : (iso_cb w t submit).h.running = 1 := by
    unfold iso_cb
    apply resubmit_failure_running _ _ _ _ hf
    split
    · rw [iso_packets_running]
      exact hr
    · exact hr
  refine ⟨h1, ?_⟩
  unfold usb_loop_continues
  rw [h1]
  decide

/-- A streaming session whose resubmission returns -1. -/
theorem iso_cb_resubmit_failure_leaves_running_witness :
    (iso_cb demo_streaming demo_transfer (-1)).h.running = 1 ∧
    usb_loop_continues (iso_cb demo_streaming demo_transfer (-1)) = true :=
  iso_cb_resubmit_failure_leaves_running demo_streaming demo_transfer (-1) (by decide) (by decide)

/-! ## `tc001_start` -/

/-- C5. On a session whose running flag is set, `tc001_start` with any
non-null callback returns `TC001_ERR_STATE` and leaves the whole session as it
was: flag, callback, user context, transfer handle, cursor, and the sets of
allocated and submitted transfers. -/
theorem tc001_start_running_is_state (w : World) (f user : Nat) (alloc : Option Nat)
    (submit thread_create : Int) (tid : Nat) (hr : w.h.running ≠ 0) :
    (tc001_start (some w) (some f) user alloc submit thread_create tid).status
      = tc001_status.TC001_ERR_STATE ∧
    (tc001_start (some w) (some f) user alloc submit thread_create tid).world = some w := by
  unfold tc001_start
  simp only [hr, ne_eq, not_false_eq_true, if_true, and_self]

/-- A second start on a streaming session. -/
theorem tc001_start_running_is_state_witness :
    (tc001_start (some demo_streaming) (some 8) 0 (some 6) 0 0 4).status
      = tc001_status.TC001_ERR_STATE ∧
    (tc001_start (some demo_streaming) (some 8) 0 (some 6) 0 0 4).world = some demo_streaming :=
  tc001_start_running_is_state demo_streaming 8 0 (some 6) 0 0 4 (by decide)

/-- C6 (counterexample). A start that fails at the transfer allocation returns
`TC001_ERR_ALLOC` and has replaced the registered callback 7 and user context 9
by the arguments 8 and 0 of the failed call. -/
theorem tc001_start_failure_replaces_callback :
    (tc001_start (some demo_world) (some 8) 0 none 0 0 4).status
      = tc001_status.TC001_ERR_ALLOC ∧
    demo_world.h.cb = some 7 ∧ demo_world.h.cb_user = 9 ∧
    (tc001_start (some demo_world) (some 8) 0 none 0 0 4).world.map (fun v => (v.h.cb, v.h.cb_user))
      = some (some 8, 0) := by
  decide

/-- C6 (amended). A `tc001_start` that returns a status other than `TC001_OK`
and `TC001_ERR_INTERNAL` either returns `TC001_ERR_PARAM` or `TC001_ERR_STATE`
and leaves the session exactly as it was, or returns `TC001_ERR_ALLOC` or
`TC001_ERR_USB` on a session that was not running and leaves it as it was
(running flag unset, cursor, allocated and submitted transfers, threads) except
that the transfer handle is null and the callback and user context are the
arguments of the call. -/
theorem tc001_start_failure_rollback (hw : Option World) (cb : Option Nat) (user : Nat)
    (alloc : Option Nat) (submit thread_create : Int) (tid : Nat)
    (hne : (tc001_start hw cb user alloc submit thread_create tid).status
      ≠ tc001_status.TC001_OK)
    (hni : (tc001_start hw cb user alloc submit thread_create tid).status
      ≠ tc001_status.TC001_ERR_INTERNAL) :
    (((tc001_start hw cb user alloc submit thread_create tid).status
          = tc001_status.TC001_ERR_PARAM ∨
        (tc001_start hw cb user alloc submit thread_create tid).status
          = tc001_status.TC001_ERR_STATE) ∧
      (tc001_start hw cb user alloc submit thread_create tid).world = hw) ∨
    (((tc001_start hw cb user alloc submit thread_create tid).status
          = tc001_status.TC001_ERR_ALLOC ∨
        (tc001_start hw cb user alloc submit thread_create tid).status
          = tc001_status.TC001_ERR_USB) ∧
      ∃ w f, hw = some w ∧ cb = some f ∧ w.h.running = 0 ∧
        (tc001_start hw cb user alloc submit thread_create tid).world
          = some { w with h := { w.h with cb := some f, cb_user := user, xfer := none } }) := by
  unfold tc001_start at hne hni ⊢
  cases hw with
  | none => simp
  | some w =>
    cases cb with
    | none => simp
    | some f =>
      by_cases hr : w.h.running = 0
      · have hr1 : ¬ (w.h.running ≠ 0) := not_not.mpr hr
        simp only [if_neg hr1] at hne hni ⊢
        cases alloc with
        | none =>
          right
          exact ⟨Or.inl rfl, w, f, rfl, rfl, hr, rfl⟩
        | some x =>
          simp only at hne hni ⊢
          by_cases hs : submit < 0
          · simp only [hs, if_true] at hne hni ⊢
            right
            refine ⟨Or.inr trivial, w, f, rfl, rfl, hr, ?_⟩
            simp
          · simp only [hs, if_false] at hne hni ⊢
            by_cases ht : thread_create ≠ 0
            · simp [ht] at hni
            · simp [ht] at hne
      · simp [hr]

/-- A start whose submission returns -1. -/
theorem tc001_start_failure_rollback_witness :
    (((tc001_start (some demo_world) (some 8) 0 (some 6) (-1) 0 4).status
          = tc001_status.TC001_ERR_PARAM ∨
        (tc001_start (some demo_world) (some 8) 0 (some 6) (-1) 0 4).status
          = tc001_status.TC001_ERR_STATE) ∧
      (tc001_start (some demo_world) (some 8) 0 (some 6) (-1) 0 4).world = some demo_world) ∨
    (((tc001_start (some demo_world) (some 8) 0 (some 6) (-1) 0 4).status
          = tc001_status.TC001_ERR_ALLOC ∨
        (tc001_start (some demo_world) (some 8) 0 (some 6) (-1) 0 4).status
          = tc001_status.TC001_ERR_USB) ∧
      ∃ w f, some demo_world = some w ∧ some 8 = some f ∧ w.h.running = 0 ∧
        (tc001_start (some demo_world) (some 8) 0 (some 6) (-1) 0 4).world
          = some { w with h := { w.h with cb := some f, cb_user := 0, xfer := none } }) :=
  tc001_start_failure_rollback (some demo_world) (some 8) 0 (some 6) (-1) 0 4
    (by decide) (by decide)

/-! ## `tc001_open` -/

theorem FAIL_USB_all_released (h : tc001_handle) (tr : List OpenEvent) (msg : String)
    (hr : ∀ r : Resource, r ≠ Resource.iso_buf → r ≠ Resource.frame_buf →
      acquired tr r = 1 ∧ released tr r = 0)
    (hi : acquired tr Resource.iso_buf = if h.iso_buf.isSome then 1 else 0)
    (hf : acquired tr Resource.frame_buf = if h.frame_buf.isSome then 1 else 0)
    (ri : released tr Resource.iso_buf = 0) (rf : released tr Resource.frame_buf = 0) :
    all_released (FAIL_USB h tr msg).trace := by
  intro r
  have h1 := hr Resource.handle_mem (by decide) (by decide)
  have h2 := hr Resource.usb_ctx (by decide) (by decide)
  have h3 := hr Resource.dev_handle (by decide) (by decide)
  have h4 := hr Resource.iface (by decide) (by decide)
  unfold FAIL_USB
  unfold acquired released at *
  cases hib : h.iso_buf <;> cases hfb : h.frame_buf <;> cases r <;>
    simp_all [List.count_append, List.count_cons, List.count_nil]

theorem before_buffers_issue (tr : List OpenEvent) (s : Handshake) (hp : before_buffers tr) :
    before_buffers (tr ++ [OpenEvent.issue s]) := by
  unfold before_buffers acquired released at *
  simpa [List.count_append, List.count_cons] using hp

theorem FAIL_USB_no_half_init (h : tc001_handle) (tr : List OpenEvent) (msg : String)
    (hp : before_buffers tr) (hi : h.iso_buf = none) (hf : h.frame_buf = none) :
    no_half_init (FAIL_USB h tr msg) := by
  obtain ⟨p1, p2, p3, p4, p5⟩ := hp
  refine ⟨fun _ => ⟨rfl, ?_⟩, fun hok => ?_⟩
  · exact FAIL_USB_all_released h tr msg p1 (by simp [hi, p2]) (by simp [hf, p3]) p4 p5
  · exact absurd hok (by simp [FAIL_USB])

theorem open_buffers_no_half_init (o : OpenOutcomes) (h : tc001_handle) (tr : List OpenEvent)
    (hp : before_buffers tr) : no_half_init (open_buffers o h tr) := by
  obtain ⟨p1, p2, p3, p4, p5⟩ := hp
  unfold open_buffers
  cases hi : o.malloc_iso with
  | none =>
    simp only [Option.isSome_none, Bool.false_eq_true, if_false, Option.isNone_none,
      Bool.true_or, if_true]
    refine ⟨fun _ => ⟨rfl, ?_⟩, fun hok => absurd hok (by simp [FAIL_USB])⟩
    apply FAIL_USB_all_released
    · intro r h1 h2
      cases o.malloc_frame <;> cases r <;>
        simp_all [acquired, released, List.count_append, List.count_cons]
    · cases o.malloc_frame <;>
        simp_all [acquired, released, List.count_append, List.count_cons]
    · cases o.malloc_frame <;>
        simp_all [acquired, released, List.count_append, List.count_cons]
    · cases o.malloc_frame <;>
        simp_all [acquired, released, List.count_append, List.count_cons]
    · cases o.malloc_frame <;>
        simp_all [acquired, released, List.count_append, List.count_cons]
  | some a =>
    cases hf : o.malloc_frame with
    | none =>
      simp only [Option.isSome_some, if_true, Option.isSome_none, Bool.false_eq_true, if_false,
        Option.isNone_some, Option.isNone_none, Bool.or_true]
      refine ⟨fun _ => ⟨rfl, ?_⟩, fun hok => absurd hok (by simp [FAIL_USB])⟩
      apply FAIL_USB_all_released
      · intro r h1 h2
        cases r <;> simp_all [acquired, released, List.count_append, List.count_cons]
      all_goals simp_all [acquired, released, List.count_append, List.count_cons]
    | some b =>
      simp only [Option.isSome_some, if_true, Option.isNone_some, Bool.or_self,
        Bool.false_eq_true, if_false]
      refine ⟨fun hne => absurd rfl hne, fun _ => ⟨_, rfl, rfl, rfl, rfl, ?_⟩⟩
      intro r
      have h1 := p1 Resource.handle_mem (by decide) (by decide)
      have h2 := p1 Resource.usb_ctx (by decide) (by decide)
      have h3 := p1 Resource.dev_handle (by decide) (by decide)
      have h4 := p1 Resource.iface (by decide) (by decide)
      cases r <;> simp_all [acquired, released, List.count_append, List.count_cons]

theorem open_handshake_no_half_init (o : OpenOutcomes) (h : tc001_handle) (tr : List OpenEvent)
    (hp : before_buffers tr) (hi : h.iso_buf = none) (hf : h.frame_buf = none) :
    no_half_init (open_handshake o h tr) := by
  have q1 := before_buffers_issue tr Handshake.set_configuration hp
  have q2 := before_buffers_issue _ Handshake.vendor_setup q1
  have q3 := before_buffers_issue _ Handshake.probe q2
  have q4 := before_buffers_issue _ Handshake.commit q3
  have q5 := before_buffers_issue _ Handshake.alt_setting q4
  unfold open_handshake
  simp only
  split
  · exact FAIL_USB_no_half_init h _ _ q1 hi hf
  split
  · exact FAIL_USB_no_half_init h _ _ q2 hi hf
  split
  · exact FAIL_USB_no_half_init h _ _ q3 hi hf
  split
  · exact FAIL_USB_no_half_init h _ _ q4 hi hf
  split
  · exact FAIL_USB_no_half_init h _ _ q5 hi hf
  exact open_buffers_no_half_init o h _ q5

theorem tc001_open_no_half_init_aux (vid pid : Nat) (o : OpenOutcomes) :
    no_half_init (tc001_open true vid pid o) := by
  unfold tc001_open
  simp only [Bool.not_true, Bool.false_eq_true, if_false]
  split
  · refine ⟨fun _ => ⟨rfl, fun r => ?_⟩, fun hok => absurd hok (by simp)⟩
    cases r <;> simp [acquired, released]
  split
  · refine ⟨fun _ => ⟨rfl, fun r => ?_⟩, fun hok => absurd hok (by simp)⟩
    cases r <;> simp [acquired, released, List.count_cons]
  split
  · refine ⟨fun _ => ⟨rfl, fun r => ?_⟩, fun hok => absurd hok (by simp)⟩
    cases r <;> simp [acquired, released, List.count_cons]
  split
  · refine ⟨fun _ => ⟨rfl, fun r => ?_⟩, fun hok => absurd hok (by simp)⟩
    cases r <;> simp [acquired, released, List.count_cons]
  · apply open_handshake_no_half_init
    · refine ⟨fun r h1 h2 => ?_, ?_, ?_, ?_, ?_⟩
      · cases r <;> simp_all [acquired, released, List.count_cons]
      all_goals simp [acquired, released, List.count_cons]
    · rfl
    · rfl

/-- C7. `tc001_open` with a non-null `out` never returns a half-initialized
session, whatever the underlying steps answer: with a status other than
`TC001_OK`, `*out` is `NULL` and every resource acquired during the call has
been released exactly once; with `TC001_OK`, `*out` is a handle with both
buffers allocated and the cursor at 0, holding every resource, none released. -/
theorem tc001_open_no_half_init (vid pid : Nat) (o : OpenOutcomes) :
    ((tc001_open true vid pid o).status ≠ tc001_status.TC001_OK →
      (tc001_open true vid pid o).out = none ∧ all_released (tc001_open true vid pid o).trace) ∧
    ((tc001_open true vid pid o).status = tc001_status.TC001_OK →
      ∃ h, (tc001_open true vid pid o).out = some h ∧ h.iso_buf.isSome = true ∧
        h.frame_buf.isSome = true ∧ h.frame_pos = 0 ∧
        all_held (tc001_open true vid pid o).trace) :=
  tc001_open_no_half_init_aux vid pid o

/-- C8 (what the code does). When every transport step succeeds and the
allocation of the isochronous receive buffer fails, `tc001_open` reports the
message for a buffer allocation failure and returns `TC001_ERR_USB` (-3), not
`TC001_ERR_ALLOC` (-4); all five handshake steps were issued before. -/
theorem tc001_open_buffer_alloc_failure_is_usb :
    (tc001_open true 0 0 demo_outcomes_no_iso_buf).status = tc001_status.TC001_ERR_USB ∧
    (tc001_open true 0 0 demo_outcomes_no_iso_buf).status.code = -3 ∧
    (tc001_open true 0 0 demo_outcomes_no_iso_buf).err = some "alloc buffers" ∧
    (tc001_open true 0 0 demo_outcomes_no_iso_buf).trace.filter
        (fun e => match e with | OpenEvent.issue _ => true | _ => false)
      = [OpenEvent.issue Handshake.set_configuration, OpenEvent.issue Handshake.vendor_setup,
         OpenEvent.issue Handshake.probe, OpenEvent.issue Handshake.commit,
         OpenEvent.issue Handshake.alt_setting] := by
  decide

/-! ## `tc001_stop` -/

theorem iso_cb_running_zero (w : World) (t : libusb_transfer) (submit : Int)
    (hr : w.h.running = 0) : (iso_cb w t submit).h.running = 0 := by
  have h1 : ∀ v : World, v.h.running = 0 → (resubmit v t submit).h.running = 0 := by
    intro v hv
    unfold resubmit
    rw [if_neg (not_not.mpr hv)]
    exact hv
  unfold iso_cb
  apply h1
  split
  · rw [iso_packets_running]
    exact hr
  · exact hr

theorem drain_running_zero (drain : List libusb_transfer) (w : World) (hr : w.h.running = 0) :
    (drain.foldl (fun a t => iso_cb a t 0) w).h.running = 0 := by
  induction drain generalizing w with
  | nil => exact hr
  | cons t ts ih => exact ih _ (iso_cb_running_zero w t 0 hr)

theorem tc001_stop_not_running (w : World) (drain : List libusb_transfer)
    (hr : w.h.running = 0) : tc001_stop (some w) drain = some w := by
  unfold tc001_stop
  simp only [hr, if_true]

theorem tc001_stop_when_running (w : World) (drain : List libusb_transfer)
    (hr : w.h.running ≠ 0) :
    ∃ v, tc001_stop (some w) drain = some v ∧ v.h.running = 0 ∧ v.h.xfer = none := by
  unfold tc001_stop
  simp only [if_neg hr]
  refine ⟨_, rfl, ?_, ?_⟩
  · cases hx : w.h.xfer with
    | none => rfl
    | some x => exact drain_running_zero drain _ rfl
  · cases hx : w.h.xfer with
    | none => rfl
    | some x => rfl

theorem tc001_stop_twice (hw : Option World) (d1 d2 : List libusb_transfer) :
    tc001_stop (tc001_stop hw d1) d2 = tc001_stop hw d1 := by
  cases hw with
  | none => rfl
  | some w =>
    by_cases hr : w.h.running = 0
    · rw [tc001_stop_not_running w d1 hr, tc001_stop_not_running w d2 hr]
    · obtain ⟨v, hv, h0, _⟩ := tc001_stop_when_running w d1 hr
      rw [hv, tc001_stop_not_running v d2 h0]

/-- C9 (what the code does). After a successful open, a start that fails at
thread creation returns `TC001_ERR_INTERNAL` with the running flag clear while
the transfer 5 stays allocated, submitted and stored in the handle; the
following `tc001_stop` returns at once and leaves all of that in place. -/
theorem tc001_stop_after_failed_thread_keeps_transfer :
    (tc001_open true 0 0 demo_outcomes).status = tc001_status.TC001_OK ∧
    demo_start_no_thread.status = tc001_status.TC001_ERR_INTERNAL ∧
    session_summary (tc001_stop demo_start_no_thread.world []) =
      some ({ ctx := some 1, dev := some 2, xfer := some 5, iso_buf := some 8192
              frame_buf := some 4096, frame_pos := 0, running := 0, cb := some 7
              cb_user := 9, thread := none }, [5], [5]) := by
  decide

/-! ## `tc001_u16_to_u8` -/

theorem truncToInt_mono {x y : ℚ} (h : x ≤ y) : truncToInt x ≤ truncToInt y := by
  unfold truncToInt
  split
  · rw [if_pos (le_trans ‹0 ≤ x› h)]
    exact Int.floor_mono h
  · rename_i hx
    have hx0 : x < 0 := not_le.mp hx
    have c0 : ⌈x⌉ ≤ 0 := Int.ceil_le.mpr (by exact_mod_cast hx0.le)
    split
    · rename_i hy
      exact le_trans c0 (Int.floor_nonneg.mpr hy)
    · exact Int.ceil_mono h

theorem clamp_u8_le (u : Int) : clamp_u8 u ≤ 255 := by
  unfold clamp_u8
  simp only
  split_ifs <;> omega

theorem clamp_u8_mono {u v : Int} (h : u ≤ v) : clamp_u8 u ≤ clamp_u8 v := by
  unfold clamp_u8
  simp only
  split_ifs <;> omega

theorem agc_span_pos (rnd : ℚ → ℚ) (lo hi : Nat) : 0 < agc_span rnd lo hi := by
  unfold agc_span
  simp only
  split
  · norm_num
  · rename_i h
    linarith [not_lt.mp h]

theorem agc_pixel_mono (rnd : ℚ → ℚ) (hm : Monotone rnd) (lo : Nat) (span : ℚ) (hs : 0 < span)
    {x y : Nat} (h : x ≤ y) : agc_pixel rnd lo span x ≤ agc_pixel rnd lo span y := by
  unfold agc_pixel
  simp only
  apply clamp_u8_mono
  apply truncToInt_mono
  apply hm
  have h1 : rnd ((((x : Int) - (lo : Int) : Int) : ℚ)) ≤ rnd ((((y : Int) - (lo : Int) : Int) : ℚ)) := by
    apply hm
    have : (x : Int) - (lo : Int) ≤ (y : Int) - (lo : Int) := by omega
    exact_mod_cast this
  have h2 := hm (div_le_div_of_nonneg_right h1 hs.le)
  have h3 := hm (mul_le_mul_of_nonneg_right h2 (by norm_num : (0 : ℚ) ≤ 255))
  linarith

theorem tc001_u16_to_u8_getD (rnd : ℚ → ℚ) (inp : List Nat) (count : Int) (hc : 0 < count)
    (i : Nat) (hi : i < count.toNat) :
    (tc001_u16_to_u8 rnd inp count).getD i 0 =
      agc_pixel rnd (scan_lo_hi inp count.toNat).1
        (agc_span rnd (scan_lo_hi inp count.toNat).1 (scan_lo_hi inp count.toNat).2)
        (readU16 inp i) := by
  unfold tc001_u16_to_u8
  rw [if_neg (not_le.mpr hc)]
  simp only
  rw [List.getD_eq_getElem _ _ (by simpa using hi)]
  simp

/-- C10. `tc001_u16_to_u8` is monotonic within a buffer: for `count > 0`, with
every `float` operation rounded by any monotone rounding function (as each
IEEE-754 rounding is), `count` bytes are stored, `in[i] < in[j]` implies
`out[i] <= out[j]` for all indices below `count`, and every stored byte is in
[0, 255]. -/
theorem tc001_u16_to_u8_monotone (rnd : ℚ → ℚ) (hm : Monotone rnd) (inp : List Nat)
    (count : Int) (hc : 0 < count) (i j : Nat) (hi : i < count.toNat) (hj : j < count.toNat)
    (hlt : readU16 inp i < readU16 inp j) :
    (tc001_u16_to_u8 rnd inp count).length = count.toNat ∧
    (tc001_u16_to_u8 rnd inp count).getD i 0 ≤ (tc001_u16_to_u8 rnd inp count).getD j 0 ∧
    ∀ k : Nat, k < count.toNat → (tc001_u16_to_u8 rnd inp count).getD k 0 ≤ 255 := by
  refine ⟨?_, ?_, ?_⟩
  · unfold tc001_u16_to_u8
    rw [if_neg (not_le.mpr hc)]
    simp
  · rw [tc001_u16_to_u8_getD rnd inp count hc i hi, tc001_u16_to_u8_getD rnd inp count hc j hj]
    exact agc_pixel_mono rnd hm _ _ (agc_span_pos rnd _ _) hlt.le
  · intro k hk
    rw [tc001_u16_to_u8_getD rnd inp count hc k hk]
    exact clamp_u8_le _

theorem tc001_u16_to_u8_le_255 (rnd : ℚ → ℚ) (inp : List Nat) (count : Int) (hc : 0 < count)
    (k : Nat) (hk : k < count.toNat) : (tc001_u16_to_u8 rnd inp count).getD k 0 ≤ 255 := by
  rw [tc001_u16_to_u8_getD rnd inp count hc k hk]
  exact clamp_u8_le _

/-! ### Monotonicity of the binary32 rounding -/

theorem roundEven_mono {x y : ℚ} (h : x ≤ y) : roundEven x ≤ roundEven y := by
  have hfl : ⌊x⌋ ≤ ⌊y⌋ := Int.floor_mono h
  have x0 := Int.floor_le x
  have x1 := Int.lt_floor_add_one x
  have y0 := Int.floor_le y
  have y1 := Int.lt_floor_add_one y
  rcases lt_or_eq_of_le hfl with hlt | heq
  · unfold roundEven
    split_ifs <;> omega
  · unfold roundEven
    rw [heq] at x0 x1 ⊢
    split_ifs <;> first | omega | (exfalso; linarith)

theorem roundEven_intCast (n : Int) : roundEven (n : ℚ) = n := by
  unfold roundEven
  simp

theorem roundEven_le_of_le {y : ℚ} {n : Int} (h : y ≤ n) : roundEven y ≤ n := by
  have := roundEven_mono h
  rwa [roundEven_intCast] at this

theorem le_roundEven_of_le {y : ℚ} {n : Int} (h : (n : ℚ) ≤ y) : n ≤ roundEven y := by
  have := roundEven_mono h
  rwa [roundEven_intCast] at this

theorem f32_quantum_pos (x : ℚ) : 0 < f32_quantum x := by
  unfold f32_quantum
  exact zpow_pos (by norm_num) _

theorem roundF32_pos_nonneg {x : ℚ} (hx : 0 < x) : 0 ≤ roundF32_pos x := by
  unfold roundF32_pos
  apply mul_nonneg _ (f32_quantum_pos x).le
  have : (0 : Int) ≤ roundEven (x / f32_quantum x) :=
    le_roundEven_of_le (by simpa using (div_pos hx (f32_quantum_pos x)).le)
  exact_mod_cast this

theorem roundF32_pos_le_next_power (x : ℚ) :
    roundF32_pos x ≤ 2 ^ (max (Int.log 2 x) (-126) + 1) := by
  have hq := f32_quantum_pos x
  have h1 : x < (2 : ℚ) ^ (Int.log 2 x + 1) := by
    exact_mod_cast Int.lt_zpow_succ_log_self (by norm_num : 1 < 2) x
  have h2 : (2 : ℚ) ^ (Int.log 2 x + 1) ≤ 2 ^ (max (Int.log 2 x) (-126) + 1) :=
    zpow_le_zpow_right₀ (by norm_num) (by omega)
  have h3 : (2 : ℚ) ^ (max (Int.log 2 x) (-126) + 1) = ((16777216 : Int) : ℚ) * f32_quantum x := by
    unfold f32_quantum
    have : ((16777216 : Int) : ℚ) = (2 : ℚ) ^ (24 : Int) := by norm_num
    rw [this, ← zpow_add₀ (by norm_num : (2 : ℚ) ≠ 0)]
    congr 1
    ring
  have h4 : x / f32_quantum x ≤ ((16777216 : Int) : ℚ) := by
    rw [div_le_iff₀ hq]
    linarith
  have h5 : ((roundEven (x / f32_quantum x) : Int) : ℚ) ≤ ((16777216 : Int) : ℚ) :=
    Int.cast_le.mpr (roundEven_le_of_le h4)
  rw [h3]
  unfold roundF32_pos
  exact mul_le_mul_of_nonneg_right h5 hq.le

theorem power_le_roundF32_pos (y : ℚ) (hy : 0 < y) (hl : -126 ≤ Int.log 2 y) :
    (2 : ℚ) ^ (Int.log 2 y) ≤ roundF32_pos y := by
  have hq := f32_quantum_pos y
  have hm : max (Int.log 2 y) (-126) = Int.log 2 y := max_eq_left hl
  have h1 : (2 : ℚ) ^ (Int.log 2 y) ≤ y := by
    exact_mod_cast Int.zpow_log_le_self (by norm_num : 1 < 2) hy
  have h3 : (2 : ℚ) ^ (Int.log 2 y) = ((8388608 : Int) : ℚ) * f32_quantum y := by
    unfold f32_quantum
    rw [hm]
    have : ((8388608 : Int) : ℚ) = (2 : ℚ) ^ (23 : Int) := by norm_num
    rw [this, ← zpow_add₀ (by norm_num : (2 : ℚ) ≠ 0)]
    congr 1
    ring
  have h4 : ((8388608 : Int) : ℚ) ≤ y / f32_quantum y := by
    rw [le_div_iff₀ hq]
    linarith
  have h5 : ((8388608 : Int) : ℚ) ≤ ((roundEven (y / f32_quantum y) : Int) : ℚ) :=
    Int.cast_le.mpr (le_roundEven_of_le h4)
  rw [h3]
  unfold roundF32_pos
  exact mul_le_mul_of_nonneg_right h5 hq.le

theorem roundF32_pos_mono {x y : ℚ} (hx : 0 < x) (h : x ≤ y) :
    roundF32_pos x ≤ roundF32_pos y := by
  have hy : 0 < y := lt_of_lt_of_le hx h
  have hlog : Int.log 2 x ≤ Int.log 2 y := Int.log_mono_right hx h
  have hle : max (Int.log 2 x) (-126) ≤ max (Int.log 2 y) (-126) := max_le_max hlog le_rfl
  rcases eq_or_lt_of_le hle with heq | hlt
  · have hq : f32_quantum x = f32_quantum y := by
      unfold f32_quantum
      rw [heq]
    unfold roundF32_pos
    rw [hq]
    have hd : x / f32_quantum y ≤ y / f32_quantum y :=
      div_le_div_of_nonneg_right h (f32_quantum_pos y).le
    exact mul_le_mul_of_nonneg_right (Int.cast_le.mpr (roundEven_mono hd)) (f32_quantum_pos y).le
  · have hl : -126 ≤ Int.log 2 y := by
      rcases le_total (Int.log 2 y) (-126) with hc | hc
      · rw [max_eq_right hc] at hlt
        have := le_max_right (Int.log 2 x) (-126)
        omega
      · exact hc
    have hm : max (Int.log 2 y) (-126) = Int.log 2 y := max_eq_left hl
    rw [hm] at hlt
    calc roundF32_pos x ≤ 2 ^ (max (Int.log 2 x) (-126) + 1) := roundF32_pos_le_next_power x
      _ ≤ 2 ^ (Int.log 2 y) := zpow_le_zpow_right₀ (by norm_num) (by omega)
      _ ≤ roundF32_pos y := power_le_roundF32_pos y hy hl

theorem roundF32_monotone : Monotone roundF32 := by
  intro x y h
  unfold roundF32
  by_cases hx : 0 < x
  · have hy : 0 < y := lt_of_lt_of_le hx h
    rw [if_pos hx, if_pos hy]
    exact roundF32_pos_mono hx h
  · rw [if_neg hx]
    by_cases hx2 : x < 0
    · rw [if_pos hx2]
      have nx := roundF32_pos_nonneg (neg_pos.mpr hx2)
      by_cases hy : 0 < y
      · rw [if_pos hy]
        have := roundF32_pos_nonneg hy
        linarith
      · rw [if_neg hy]
        by_cases hy2 : y < 0
        · rw [if_pos hy2]
          have := roundF32_pos_mono (neg_pos.mpr hy2) (neg_le_neg h)
          linarith
        · rw [if_neg hy2]
          linarith
    · rw [if_neg hx2]
      have hx0 : x = 0 := le_antisymm (not_lt.mp hx) (not_lt.mp hx2)
      by_cases hy : 0 < y
      · rw [if_pos hy]
        exact roundF32_pos_nonneg hy
      · have hy0 : y = 0 := le_antisymm (not_lt.mp hy) (by linarith)
        rw [if_neg hy, if_neg (by linarith)]

/-- The monotonicity statement for the binary32 rounding on a buffer of four values. -/
theorem tc001_u16_to_u8_monotone_witness :
    (tc001_u16_to_u8 roundF32 demo_raw 4).length = (4 : Int).toNat ∧
    (tc001_u16_to_u8 roundF32 demo_raw 4).getD 1 0 ≤ (tc001_u16_to_u8 roundF32 demo_raw 4).getD 0 0 ∧
    ∀ k : Nat, k < (4 : Int).toNat → (tc001_u16_to_u8 roundF32 demo_raw 4).getD k 0 ≤ 255 :=
  tc001_u16_to_u8_monotone roundF32 roundF32_monotone demo_raw 4 (by decide) 1 0
    (by decide) (by decide) (by decide)

/-! ### Uniform input -/

theorem scan_lo_hi_succ (inp : List Nat) (n : Nat) :
    scan_lo_hi inp (n + 1) =
      ((if readU16 inp n < (scan_lo_hi inp n).1 then readU16 inp n else (scan_lo_hi inp n).1),
       (if readU16 inp n > (scan_lo_hi inp n).2 then readU16 inp n else (scan_lo_hi inp n).2)) := by
  simp [scan_lo_hi, List.range_succ, List.foldl_append]

theorem scan_lo_hi_uniform (inp : List Nat) (v : Nat) (hv : v ≤ 65535) (n : Nat)
    (hu : ∀ i, i < n + 1 → readU16 inp i = v) : scan_lo_hi inp (n + 1) = (v, v) := by
  induction n with
  | zero =>
    rw [scan_lo_hi_succ, hu 0 (by omega)]
    have e : scan_lo_hi inp 0 = (65535, 0) := rfl
    rw [e]
    simp only
    split_ifs <;> first | rfl | (congr 1 <;> omega)
  | succ n ih =>
    rw [scan_lo_hi_succ, ih (fun i hi => hu i (by omega)), hu (n + 1) (by omega)]
    simp

/-- C11. `tc001_u16_to_u8` on a uniform input: for `count > 0`, if all `count`
elements read as the 16-bit value `v`, the scan finds `lo = hi = v`, the span
used as divisor is at least 1 (so it is not zero), `count` bytes are stored and
every one of them is the same constant, the image of `v`. -/
theorem tc001_u16_to_u8_uniform (rnd : ℚ → ℚ) (inp : List Nat) (count : Int) (v : Nat)
    (hc : 0 < count) (hu : ∀ i, i < count.toNat → readU16 inp i = v) :
    scan_lo_hi inp count.toNat = (v, v) ∧
    1 ≤ agc_span rnd v v ∧ agc_span rnd v v ≠ 0 ∧
    (tc001_u16_to_u8 rnd inp count).length = count.toNat ∧
    ∀ k : Nat, k < count.toNat →
      (tc001_u16_to_u8 rnd inp count).getD k 0 = agc_pixel rnd v (agc_span rnd v v) v := by
  obtain ⟨n, hn⟩ : ∃ n, count.toNat = n + 1 := ⟨count.toNat - 1, by omega⟩
  have hv : v ≤ 65535 := by
    have h0 := hu 0 (by omega)
    unfold readU16 at h0
    omega
  have hscan : scan_lo_hi inp count.toNat = (v, v) := by
    rw [hn]
    exact scan_lo_hi_uniform inp v hv n (fun i hi => hu i (by omega))
  have hspan : 1 ≤ agc_span rnd v v := by
    unfold agc_span
    simp only
    split
    · exact le_refl 1
    · rename_i h
      exact not_lt.mp h
  refine ⟨hscan, hspan, ?_, ?_, ?_⟩
  · linarith
  · unfold tc001_u16_to_u8
    rw [if_neg (not_le.mpr hc)]
    simp
  · intro k hk
    rw [tc001_u16_to_u8_getD rnd inp count hc k hk, hscan, hu k hk]

/-- The uniform-input statement for the binary32 rounding on three equal values. -/
theorem tc001_u16_to_u8_uniform_witness :
    scan_lo_hi demo_uniform (3 : Int).toNat = (700, 700) ∧
    1 ≤ agc_span roundF32 700 700 ∧ agc_span roundF32 700 700 ≠ 0 ∧
    (tc001_u16_to_u8 roundF32 demo_uniform 3).length = (3 : Int).toNat ∧
    ∀ k : Nat, k < (3 : Int).toNat →
      (tc001_u16_to_u8 roundF32 demo_uniform 3).getD k 0
        = agc_pixel roundF32 700 (agc_span roundF32 700 700) 700 :=
  tc001_u16_to_u8_uniform roundF32 demo_uniform 3 700 (by decide) (by decide)

/-! ## Fusion payload -/

theorem le_bytes_length (n x : Nat) : (le_bytes n x).length = n := by
  induction n generalizing x with
  | zero => rfl
  | succ n ih => simp [le_bytes, ih]

theorem SIZEOF_PAYLOAD_HDR_eq : SIZEOF_PAYLOAD_HDR = 1273 := by
  norm_num [SIZEOF_PAYLOAD_HDR, SIZEOF_FRAME_INFO, SIZEOF_FRAME_STATS, SIZEOF_TEMP_MODEL,
    SIZEOF_CALIBRATION, SIZEOF_MAT3, SIZEOF_MAT4]

theorem pack_block_length (src : PackSource) (thumb_w thumb_h : Nat) :
    (pack_block src thumb_w thumb_h).length
      = tc001_max_payload_bytes src.width src.height thumb_w thumb_h := by
  unfold pack_block tc001_max_payload_bytes
  simp only [List.length_append, List.length_map, List.length_range, le_bytes_length]
  have h6 : SIZEOF_THUMBNAIL8 = 6 := rfl
  rw [SIZEOF_PAYLOAD_HDR_eq, h6]

theorem tc001_pack_payload_some (src : PackSource) (buf : List Nat) (dst_cap : Nat)
    (thumb_w thumb_h : Nat) :
    tc001_pack_payload (some src) (some buf) dst_cap thumb_w thumb_h =
      if dst_cap < tc001_max_payload_bytes src.width src.height thumb_w thumb_h then
        { written := 0, dst := some buf }
      else
        { written := (pack_block src thumb_w thumb_h).length
          dst := some (pack_block src thumb_w thumb_h ++
            buf.drop (pack_block src thumb_w thumb_h).length) } :=
  rfl

/-- C12. Payload size bound: for `w, h, thumb_w, thumb_h > 0` and a captured
frame of `w` x `h` pixels, `tc001_max_payload_bytes(w, h, thumb_w, thumb_h)` is
at least the number of bytes `tc001_pack_payload` writes, whatever the
destination and its capacity; it is exactly that number when the packing
succeeds; and with a capacity one byte below `tc001_max_payload_bytes` the
packing returns 0 and leaves the destination as it was. -/
theorem tc001_pack_payload_size_bound (src : PackSource) (buf : List Nat) (dst_cap : Nat)
    (thumb_w thumb_h : Nat) (hw : 0 < src.width) (hh : 0 < src.height)
    (htw : 0 < thumb_w) (hth : 0 < thumb_h) :
    (tc001_pack_payload (some src) (some buf) dst_cap thumb_w thumb_h).written
      ≤ tc001_max_payload_bytes src.width src.height thumb_w thumb_h ∧
    (tc001_max_payload_bytes src.width src.height thumb_w thumb_h ≤ dst_cap →
      (tc001_pack_payload (some src) (some buf) dst_cap thumb_w thumb_h).written
        = tc001_max_payload_bytes src.width src.height thumb_w thumb_h) ∧
    (dst_cap + 1 = tc001_max_payload_bytes src.width src.height thumb_w thumb_h →
      tc001_pack_payload (some src) (some buf) dst_cap thumb_w thumb_h
        = { written := 0, dst := some buf }) := by
  have _hpos : 0 < src.width * src.height * 2 + thumb_w * thumb_h := by positivity
  have hlen := pack_block_length src thumb_w thumb_h
  rw [tc001_pack_payload_some]
  generalize pack_block src thumb_w thumb_h = blk at hlen ⊢
  generalize tc001_max_payload_bytes src.width src.height thumb_w thumb_h = m at hlen ⊢
  refine ⟨?_, ?_, ?_⟩
  · split
    · exact Nat.zero_le _
    · exact le_of_eq hlen
  · intro hcap
    split
    · omega
    · exact hlen
  · intro hcap
    split
    · rfl
    · omega

/-- The size bound on a 2 x 2 frame with a 1 x 1 thumbnail and a destination of 4 bytes. -/
theorem tc001_pack_payload_size_bound_witness :
    (tc001_pack_payload (some demo_pack_source) (some [1, 2, 3, 4]) 1287 1 1).written
      ≤ tc001_max_payload_bytes demo_pack_source.width demo_pack_source.height 1 1 ∧
    (tc001_max_payload_bytes demo_pack_source.width demo_pack_source.height 1 1 ≤ 1287 →
      (tc001_pack_payload (some demo_pack_source) (some [1, 2, 3, 4]) 1287 1 1).written
        = tc001_max_payload_bytes demo_pack_source.width demo_pack_source.height 1 1) ∧
    (1287 + 1 = tc001_max_payload_bytes demo_pack_source.width demo_pack_source.height 1 1 →
      tc001_pack_payload (some demo_pack_source) (some [1, 2, 3, 4]) 1287 1 1
        = { written := 0, dst := some [1, 2, 3, 4] }) :=
  tc001_pack_payload_size_bound demo_pack_source [1, 2, 3, 4] 1287 1 1
    (by decide) (by decide) (by decide) (by decide)

/-! ## Content of the frame buffer -/

theorem payload_length_eq (d : IsoPacket) :
    d.actual_length - header_length d = payload_length d := rfl

theorem payload_bytes_length (d : IsoPacket) : (payload_bytes d).length = payload_length d := by
  simp [payload_bytes, payload_length_eq]

theorem skipped_eq_not_processed (d : IsoPacket) : skipped d = !processed d := by
  unfold skipped processed
  by_cases h1 : d.status = LIBUSB_TRANSFER_COMPLETED
  · have e1 : (d.status == LIBUSB_TRANSFER_COMPLETED) = true := beq_iff_eq.mpr h1
    have e2 : (d.status != LIBUSB_TRANSFER_COMPLETED) = false := by
      rw [bne, e1]
      rfl
    rw [e1, e2]
    by_cases h2 : d.actual_length < 2
    · have h3 : ¬ (2 ≤ d.actual_length) := by omega
      simp [h2, h3]
    · have h3 : 2 ≤ d.actual_length := by omega
      simp [h2, h3]
  · have e1 : (d.status == LIBUSB_TRANSFER_COMPLETED) = false := by
      cases hb : d.status == LIBUSB_TRANSFER_COMPLETED with
      | false => rfl
      | true => exact absurd (beq_iff_eq.mp hb) h1
    have e2 : (d.status != LIBUSB_TRANSFER_COMPLETED) = true := by
      rw [bne, e1]
      rfl
    rw [e1, e2]
    rfl

theorem land_two_ne_zero (x : Nat) : (x &&& 2 != 0) = decide (x / 2 % 2 = 1) := by
  have h1 := Nat.and_two_pow x 1
  have h2 := Nat.testBit_to_div_mod (x := x) (i := 1)
  simp only [pow_one] at h1 h2
  rw [h1, ← h2]
  cases x.testBit 1 <;> rfl

theorem eof_eq_end_of_frame_bit (d : IsoPacket) : eof d = end_of_frame_bit d := by
  unfold eof end_of_frame_bit flags
  exact land_two_ne_zero _

theorem accepts_iff_accepted_at (w : World) (acc : List Nat) (d : IsoPacket)
    (hi : holds w acc) (hb : (d.actual_length : Int) + FRAME_SIZE ≤ INT_MAX)
    (hs : skipped d = false) :
    accepts w d = accepted_at acc.length d := by
  obtain ⟨h1, h2, _⟩ := hi
  rw [FRAME_SIZE_eq] at h2 hb
  unfold INT_MAX at hb
  have hp := payload_exact d (by omega)
  have hl := hdr_len_lt d
  have hpr : processed d = true := by
    rw [skipped_eq_not_processed] at hs
    simpa using hs
  have hlen : (payload_length d : Int) = max 0 ((d.actual_length : Int) - (hdr_len d : Int)) := by
    unfold payload_length
    omega
  unfold accepts accepted_at
  rw [h1, hp, FRAME_SIZE_eq, hpr, payload_length_eq]
  by_cases hpos : 0 < (d.actual_length : Int) - (hdr_len d : Int)
  · have ht := toInt32_of_range ((acc.length : Int) + ((d.actual_length : Int) - (hdr_len d : Int)))
      (by omega) (by omega)
    rw [ht]
    have e1 : 0 < payload_length d := by omega
    by_cases hfit : (acc.length : Int) + ((d.actual_length : Int) - (hdr_len d : Int)) ≤ 98304
    · have e2 : acc.length + payload_length d ≤ 98304 := by omega
      simp [hpos, hfit, e1, e2]
    · have e2 : ¬ (acc.length + payload_length d ≤ 98304) := by omega
      simp [hpos, hfit, e1, e2]
  · have e1 : ¬ (0 < payload_length d) := by omega
    simp [hpos, e1]

theorem copied_iff_accepted_at (w : World) (acc : List Nat) (d : IsoPacket)
    (hi : holds w acc) (hb : (d.actual_length : Int) + FRAME_SIZE ≤ INT_MAX) :
    (skipped d = false ∧ accepts w d = true) ↔ accepted_at acc.length d = true := by
  cases hs : skipped d with
  | false =>
    rw [accepts_iff_accepted_at w acc d hi hb hs]
    simp
  | true =>
    have hpr : processed d = false := by
      rw [skipped_eq_not_processed] at hs
      simpa using hs
    unfold accepted_at
    rw [hpr]
    simp

theorem payload_bytes_getD (d : IsoPacket) (j : Nat) (hj : j < payload_length d) :
    (payload_bytes d).getD j 0 = readByte d.data (header_length d + j) := by
  rw [List.getD_eq_getElem _ _ (by rw [payload_bytes_length]; exact hj)]
  simp [payload_bytes]

theorem append_payload_holds (w : World) (acc : List Nat) (d : IsoPacket)
    (hi : holds w acc) (hb : (d.actual_length : Int) + FRAME_SIZE ≤ INT_MAX)
    (hs : skipped d = false) :
    holds (append_payload w d) (pending_append acc d) := by
  have hacc := accepts_iff_accepted_at w acc d hi hb hs
  obtain ⟨h1, h2, h3⟩ := hi
  unfold append_payload pending_append
  rw [hacc]
  by_cases ha : accepted_at acc.length d = true
  · rw [if_pos ha, if_pos ha]
    clear hb hacc
    unfold accepted_at at ha
    simp only [Bool.and_eq_true, decide_eq_true_eq, payload_length_eq] at ha
    obtain ⟨⟨_, a3⟩, a4⟩ := ha
    have hh : hdr_len d ≤ d.actual_length := by
      unfold payload_length at a3
      omega
    have hp := payload_eq_length d hh (by omega)
    have ht := toInt32_of_range ((acc.length : Int) + (payload_length d : Int))
      (by omega) (by omega)
    rw [FRAME_SIZE_eq] at h2
    refine ⟨?_, ?_, ?_⟩
    · simp only [h1, hp, ht, List.length_append, payload_bytes_length, Nat.cast_add]
    · rw [FRAME_SIZE_eq]
      simp only [List.length_append, payload_bytes_length, Nat.cast_add]
      omega
    · intro k hk
      simp only [List.length_append, payload_bytes_length] at hk
      simp only [memcpy, h1, hp]
      by_cases hlt : k < acc.length
      · rw [if_neg (by omega), List.getD_append _ _ _ _ hlt]
        exact h3 k hlt
      · have e : ((k : Int) - (acc.length : Int)).toNat = k - acc.length := by omega
        rw [if_pos (by omega), List.getD_append_right _ _ _ _ (by omega),
          payload_bytes_getD d _ (by omega), e]
        rfl
  · rw [if_neg ha, if_neg ha]
    exact ⟨h1, h2, h3⟩

theorem holds_nil (w : World) (h0 : w.h.frame_pos = 0) : holds w [] := by
  refine ⟨by simpa using h0, by simp [FRAME_SIZE_eq], ?_⟩
  intro k hk
  simp at hk

theorem iso_packet_holds (w : World) (acc : List Nat) (d : IsoPacket)
    (hi : holds w acc) (hb : (d.actual_length : Int) + FRAME_SIZE ≤ INT_MAX) :
    holds (iso_packet w d) (pending_step acc d) := by
  unfold iso_packet pending_step
  rw [← eof_eq_end_of_frame_bit]
  cases hs : skipped d with
  | true =>
    have hpr : processed d = false := by
      rw [skipped_eq_not_processed] at hs
      simpa using hs
    rw [hpr]
    simpa using hi
  | false =>
    have hpr : processed d = true := by
      rw [skipped_eq_not_processed] at hs
      simpa using hs
    rw [hpr]
    simp only [Bool.false_eq_true, if_false, if_true]
    have ha := append_payload_holds w acc d hi hb hs
    unfold end_of_frame
    cases he : eof d with
    | true =>
      simp only [if_true]
      exact holds_nil _ rfl
    | false =>
      simp only [Bool.false_eq_true, if_false]
      exact ha

theorem iso_packets_holds (ds : List IsoPacket) (w : World) (acc : List Nat)
    (hi : holds w acc) (hb : ∀ d ∈ ds, (d.actual_length : Int) + FRAME_SIZE ≤ INT_MAX) :
    holds (iso_packets w ds) (ds.foldl pending_step acc) := by
  induction ds generalizing w acc with
  | nil => exact hi
  | cons d ds ih =>
    exact ih (iso_packet w d) (pending_step acc d)
      (iso_packet_holds w acc d hi (hb d (List.mem_cons_self _ _)))
      (fun x hx => hb x (List.mem_cons_of_mem _ hx))

theorem append_payload_calls (w : World) (d : IsoPacket) :
    (append_payload w d).calls = w.calls := by
  unfold append_payload
  split <;> rfl

theorem deliver_calls (v : World) :
    (deliver v).calls = v.calls ∨
    (FRAME_SIZE ≤ v.h.frame_pos ∧
      ∃ f, (deliver v).calls = v.calls ++ [⟨f, fill_tc001_frame v.h, v.h.cb_user, v.frame_mem⟩]) := by
  unfold deliver
  cases v.h.cb with
  | none => exact Or.inl rfl
  | some f =>
    simp only
    split
    · rename_i hge
      exact Or.inr ⟨hge, f, rfl⟩
    · exact Or.inl rfl

theorem end_of_frame_calls (v : World) (d : IsoPacket) :
    (end_of_frame v d).calls = v.calls ∨
    (FRAME_SIZE ≤ v.h.frame_pos ∧
      ∃ f, (end_of_frame v d).calls
        = v.calls ++ [⟨f, fill_tc001_frame v.h, v.h.cb_user, v.frame_mem⟩]) := by
  unfold end_of_frame
  split
  · exact deliver_calls v
  · exact Or.inl rfl

theorem iso_packet_call_view (w : World) (acc : List Nat) (d : IsoPacket)
    (hi : holds w acc) (hb : (d.actual_length : Int) + FRAME_SIZE ≤ INT_MAX)
    (c : CallbackCall) (hc : (iso_packet w d).calls = w.calls ++ [c]) :
    (pending_append acc d).length = 98304 ∧
    ∀ k : Nat, k < 98304 → c.view (k : Int) = (pending_append acc d).getD k 0 := by
  have hne : w.calls ≠ w.calls ++ [c] := by
    intro h
    have := congrArg List.length h
    simp at this
  unfold iso_packet at hc
  cases hs : skipped d with
  | true =>
    rw [hs] at hc
    exact absurd hc hne
  | false =>
    rw [hs] at hc
    simp only [Bool.false_eq_true, if_false] at hc
    obtain ⟨h1, h2, h3⟩ := append_payload_holds w acc d hi hb hs
    rw [FRAME_SIZE_eq] at h2
    rcases end_of_frame_calls (append_payload w d) d with he | ⟨hge, f, he⟩
    · rw [he, append_payload_calls] at hc
      exact absurd hc hne
    · rw [he, append_payload_calls] at hc
      have hceq := List.append_cancel_left hc
      simp only [List.cons.injEq, and_true] at hceq
      rw [FRAME_SIZE_eq, h1] at hge
      have hlen : (pending_append acc d).length = 98304 := by omega
      refine ⟨hlen, ?_⟩
      intro k hk
      rw [← hceq]
      exact h3 k (by omega)

theorem iso_packet_copies_accepted (w : World) (acc : List Nat) (d : IsoPacket)
    (hi : holds w acc) (hb : (d.actual_length : Int) + FRAME_SIZE ≤ INT_MAX)
    (ha : accepted_at acc.length d = true) (j : Nat)
    (hj : j < d.actual_length - header_length d) :
    header_length d + j < d.actual_length ∧
    (iso_packet w d).frame_mem ((acc.length + j : Nat) : Int)
      = readByte d.data (header_length d + j) := by
  have hcop := (copied_iff_accepted_at w acc d hi hb).mpr ha
  obtain ⟨_, _, h3⟩ := append_payload_holds w acc d hi hb hcop.1
  have hpa : pending_append acc d = acc ++ payload_bytes d := by
    unfold pending_append
    rw [if_pos ha]
  rw [payload_length_eq] at hj
  have hk := h3 (acc.length + j) (by
    rw [hpa, List.length_append, payload_bytes_length]
    omega)
  rw [hpa, List.getD_append_right _ _ _ _ (by omega), Nat.add_sub_cancel_left,
    payload_bytes_getD d j hj] at hk
  refine ⟨?_, ?_⟩
  · rw [← payload_length_eq] at hj
    omega
  · unfold iso_packet
    rw [hcop.1]
    simp only [Bool.false_eq_true, if_false]
    rw [end_of_frame_mem]
    exact hk

theorem iso_packet_keeps_rejected (w : World) (acc : List Nat) (d : IsoPacket)
    (hi : holds w acc) (hb : (d.actual_length : Int) + FRAME_SIZE ≤ INT_MAX)
    (ha : accepted_at acc.length d = false) :
    (iso_packet w d).frame_mem = w.frame_mem := by
  have hiff := copied_iff_accepted_at w acc d hi hb
  unfold iso_packet
  cases hs : skipped d with
  | true => rfl
  | false =>
    simp only [Bool.false_eq_true, if_false]
    rw [end_of_frame_mem]
    have hacc : accepts w d = false := by
      cases hx : accepts w d with
      | false => rfl
      | true =>
        have := hiff.mp ⟨hs, hx⟩
        rw [ha] at this
        exact absurd this (by decide)
    unfold append_payload
    rw [hacc]
    rfl

/-- C13. Frame-buffer content invariant of `iso_cb`: starting from cursor 0,
after any sequence of packets (captured lengths for which the handler's `int`
arithmetic stays in range) the cursor is the number of pending bytes and the
frame buffer holds at `[0, cursor)` the concatenation of the slot bytes
`[header length, captured length)` of the packets accepted since the last
completed end-of-frame packet of at least two bytes, where accepted means:
sub-status completed, captured length at least 2, payload length positive and
cursor plus payload length at most 98304. For the next packet: the handler
processes it and copies its payload exactly when it is accepted; the bytes of
an accepted packet land behind the cursor and every byte copied comes from a
slot index below the captured length; a packet that is not accepted leaves
every buffer byte as it was; and a frame handed to the callback is that
concatenation, of 98304 bytes. -/
theorem iso_cb_frame_content (w : World) (ds : List IsoPacket) (d : IsoPacket)
    (h0 : w.h.frame_pos = 0)
    (hb : ∀ x ∈ ds ++ [d], (x.actual_length : Int) + FRAME_SIZE ≤ INT_MAX) :
    ((iso_packets w ds).h.frame_pos = ((pending ds).length : Int) ∧
      ∀ k : Nat, k < (pending ds).length →
        (iso_packets w ds).frame_mem (k : Int) = (pending ds).getD k 0) ∧
    ((skipped d = false ∧ accepts (iso_packets w ds) d = true) ↔
      accepted_at (pending ds).length d = true) ∧
    (accepted_at (pending ds).length d = true →
      ∀ j : Nat, j < d.actual_length - header_length d →
        header_length d + j < d.actual_length ∧
        (iso_packet (iso_packets w ds) d).frame_mem (((pending ds).length + j : Nat) : Int)
          = readByte d.data (header_length d + j)) ∧
    (accepts (iso_packets w ds) d = true → (hdr_len d : Int) + payload d ≤ d.actual_length) ∧
    (accepted_at (pending ds).length d = false →
      (iso_packet (iso_packets w ds) d).frame_mem = (iso_packets w ds).frame_mem) ∧
    (∀ c : CallbackCall, (iso_packet (iso_packets w ds) d).calls = (iso_packets w ds).calls ++ [c] →
      (pending_append (pending ds) d).length = 98304 ∧
      ∀ k : Nat, k < 98304 → c.view (k : Int) = (pending_append (pending ds) d).getD k 0) := by
  have hd := hb d (by simp)
  have hi : holds (iso_packets w ds) (pending ds) :=
    iso_packets_holds ds w [] (holds_nil w h0) (fun x hx => hb x (by simp [hx]))
  generalize iso_packets w ds = v at hi
  generalize pending ds = acc at hi
  refine ⟨⟨hi.1, hi.2.2⟩, copied_iff_accepted_at v acc d hi hd, ?_, ?_, ?_, ?_⟩
  · intro ha j hj
    exact iso_packet_copies_accepted v acc d hi hd ha j hj
  · intro ha
    obtain ⟨a1, a2, _⟩ := accepts_in_bounds v d (by rw [hi.1]; omega) (by rw [hi.1]; exact hi.2.1)
      hd ha
    rw [FRAME_SIZE_eq] at hd
    unfold INT_MAX at hd
    have hp := payload_exact d (by omega)
    omega
  · intro ha
    exact iso_packet_keeps_rejected v acc d hi hd ha
  · intro c hc
    exact iso_packet_call_view v acc d hi hd c hc

/-- The content statement on a fresh session after one packet of 4 payload bytes, with an
end-of-frame packet of 4 payload bytes as the next one. -/
theorem iso_cb_frame_content_witness :
    ((iso_packets demo_world [demo_four]).h.frame_pos = ((pending [demo_four]).length : Int) ∧
      ∀ k : Nat, k < (pending [demo_four]).length →
        (iso_packets demo_world [demo_four]).frame_mem (k : Int) = (pending [demo_four]).getD k 0) ∧
    ((skipped demo_short_eof = false ∧
        accepts (iso_packets demo_world [demo_four]) demo_short_eof = true) ↔
      accepted_at (pending [demo_four]).length demo_short_eof = true) ∧
    (accepted_at (pending [demo_four]).length demo_short_eof = true →
      ∀ j : Nat, j < demo_short_eof.actual_length - header_length demo_short_eof →
        header_length demo_short_eof + j < demo_short_eof.actual_length ∧
        (iso_packet (iso_packets demo_world [demo_four]) demo_short_eof).frame_mem
            (((pending [demo_four]).length + j : Nat) : Int)
          = readByte demo_short_eof.data (header_length demo_short_eof + j)) ∧
    (accepts (iso_packets demo_world [demo_four]) demo_short_eof = true →
      (hdr_len demo_short_eof : Int) + payload demo_short_eof ≤ demo_short_eof.actual_length) ∧
    (accepted_at (pending [demo_four]).length demo_short_eof = false →
      (iso_packet (iso_packets demo_world [demo_four]) demo_short_eof).frame_mem
        = (iso_packets demo_world [demo_four]).frame_mem) ∧
    (∀ c : CallbackCall,
      (iso_packet (iso_packets demo_world [demo_four]) demo_short_eof).calls
        = (iso_packets demo_world [demo_four]).calls ++ [c] →
      (pending_append (pending [demo_four]) demo_short_eof).length = 98304 ∧
      ∀ k : Nat, k < 98304 →
        c.view (k : Int) = (pending_append (pending [demo_four]) demo_short_eof).getD k 0) :=
  iso_cb_frame_content demo_world [demo_four] demo_short_eof rfl (by decide)

end TC001
